import Mathlib

/-!
Verification of `geoplot.py` (`GeoPlot.render`), the trajectory-to-GeoJSON
visualization transform.

The embedding models Python data as the `PyObj` tree (numbers are exact
rationals), nested-path lookup (`read_var` / `get_by_path`), the numpy
conversions used by the source (`np.array(...).tolist()` and
`.flatten().tolist()` over numeric nested lists; object-dtype arrays over
dicts or strings are outside the numeric model and are rejected), pandas
timestamps as rational seconds since an origin (the wall-clock value read by
`pd.Timestamp.utcnow()` is passed to `render` as the `start_time` argument),
and `json.dump(..., indent=2)` as an executable serializer paired with an
executable JSON parser.  Python exceptions become the `RenderErr` sum; the
two output files become the `FS` record of file contents.
-/

/-- Python data reachable by this program: numbers, strings, lists and
string-keyed dicts (insertion ordered, as in Python). -/
inductive PyObj where
  | num (q : ℚ)
  | str (s : String)
  | list (xs : List PyObj)
  | dict (kvs : List (String × PyObj))

/-- One `getitem` step of `agent_torch.core.helpers.get_by_path`: the state is
a nested string-keyed mapping, so a step succeeds only on a dict holding the
key (a missing key raises `KeyError`; indexing a non-mapping raises
`TypeError`; both are fatal and collapse to `none` here). -/
def getitem (o : PyObj) (k : String) : Option PyObj :=
  match o with
  | .dict kvs => kvs.lookup k
  | _ => none

/-- `get_by_path(state, items)`: successive `getitem` over the key list. -/
def get_by_path (state : PyObj) (path : List String) : Option PyObj :=
  path.foldlM getitem state

/-- `re.split("/", var)` on the character list: split at every `/`. -/
def splitSlash : List Char → List (List Char)
  | [] => [[]]
  | c :: cs =>
    if c = '/' then [] :: splitSlash cs
    else
      match splitSlash cs with
      | [] => [[c]]
      | g :: gs => (c :: g) :: gs

/-- `read_var(state, var)`: split `var` on `/` and walk the state. -/
def read_var (state : PyObj) (var : String) : Option PyObj :=
  get_by_path state ((splitSlash var.data).map String.mk)

mutual
/-- Shape of `np.array(x)` for numeric nested lists: `some dims` when `x` is a
rectangular nest of numbers, `none` otherwise (ragged input raises
`ValueError`; dict or string leaves would give object arrays, outside the
numeric model). -/
def npShape : PyObj → Option (List Nat)
  | .num _ => some []
  | .str _ => none
  | .dict _ => none
  | .list xs =>
    match npShapeElems xs with
    | some s => some (xs.length :: s)
    | none => none

/-- Common shape of the elements of a list, `none` when ragged. -/
def npShapeElems : List PyObj → Option (List Nat)
  | [] => some []
  | [x] => npShape x
  | x :: y :: rest =>
    match npShape x, npShapeElems (y :: rest) with
    | some s, some t => if s = t then some s else none
    | _, _ => none
end

/-- `np.array(x).tolist()`: on a valid numeric array this returns the nested
list unchanged. -/
def npArrayTolist (x : PyObj) : Option PyObj :=
  match npShape x with
  | some _ => some x
  | none => none

/-- `np.array(x).flatten().tolist()`: depth-first list of the numeric leaves. -/
def npFlatten : PyObj → List ℚ
  | .num q => [q]
  | .str _ => []
  | .dict _ => []
  | .list [] => []
  | .list (x :: xs) => npFlatten x ++ npFlatten (.list xs)

mutual
/-- Value trees with only numeric leaves — the values `npShape` can accept.
Such trees contain no string, so they serialize without escapes. -/
def numTree : PyObj → Bool
  | .num _ => true
  | .str _ => false
  | .dict _ => false
  | .list xs => numTreeList xs

/-- `numTree` over the elements of a list. -/
def numTreeList : List PyObj → Bool
  | [] => true
  | x :: xs => numTree x && numTreeList xs
end

/-- The character of a decimal digit. -/
def digitChar (d : Nat) : Char :=
  match d with
  | 0 => '0' | 1 => '1' | 2 => '2' | 3 => '3' | 4 => '4'
  | 5 => '5' | 6 => '6' | 7 => '7' | 8 => '8' | 9 => '9'
  | _ + 10 => '0'

/-- Big-endian decimal digits of `n` (empty for `0`); the first argument is
recursion fuel, sufficient whenever `n ≤ fuel`. -/
def natCharsAux : Nat → Nat → List Char
  | 0, _ => []
  | fuel + 1, n => if n = 0 then [] else natCharsAux fuel (n / 10) ++ [digitChar (n % 10)]

/-- Decimal rendering of a natural number. -/
def natChars (n : Nat) : List Char :=
  if n = 0 then ['0'] else natCharsAux n n

/-- Decimal rendering of an integer. -/
def intChars (i : Int) : List Char :=
  if i < 0 then '-' :: natChars i.natAbs else natChars i.natAbs

/-- Injective rendering of a rational: `num` when the denominator is 1 and
`num/den` otherwise.  (Python serializes floats through `repr`, which also
round-trips; the exact-rational model uses this encoding in its place.) -/
def ratChars (q : ℚ) : List Char :=
  if q.den = 1 then intChars q.num else intChars q.num ++ '/' :: natChars q.den

/-- `pd.Timestamp.isoformat()`, modeled as an injective rendering of the time
value in seconds since the origin. -/
def isoformat (t : ℚ) : String :=
  String.mk (ratChars t)

/-- Opening brace character. -/
def lbrace : Char := Char.ofNat 123

/-- Closing brace character. -/
def rbrace : Char := Char.ofNat 125

/-- Newline plus the two-space-per-level indentation of
`json.dump(..., indent=2)`. -/
def nlIndent (ind : Nat) : List Char :=
  '\n' :: List.replicate (2 * ind) ' '

mutual
/-- `json.dump(v, f, ensure_ascii=False, indent=2)` at nesting level `ind`:
the exact character stream Python writes (strings here never need escaping —
see `wfPy`). -/
def serVal (ind : Nat) : PyObj → List Char
  | .num q => ratChars q
  | .str s => '"' :: (s.data ++ ['"'])
  | .list [] => ['[', ']']
  | .list (x :: xs) =>
    '[' :: (nlIndent (ind + 1) ++ serVal (ind + 1) x ++ serListTail (ind + 1) xs
      ++ nlIndent ind ++ [']'])
  | .dict [] => [lbrace, rbrace]
  | .dict ((k, v) :: kvs) =>
    lbrace :: (nlIndent (ind + 1) ++ ('"' :: (k.data ++ ['"', ':', ' ']))
      ++ serVal (ind + 1) v ++ serDictTail (ind + 1) kvs ++ nlIndent ind ++ [rbrace])

/-- Remaining array items, each preceded by `,` and a fresh indented line. -/
def serListTail (ind : Nat) : List PyObj → List Char
  | [] => []
  | x :: xs => ',' :: (nlIndent ind ++ serVal ind x ++ serListTail ind xs)

/-- Remaining object items, each preceded by `,` and a fresh indented line. -/
def serDictTail (ind : Nat) : List (String × PyObj) → List Char
  | [] => []
  | (k, v) :: kvs =>
    ',' :: (nlIndent ind ++ ('"' :: (k.data ++ ['"', ':', ' ']))
      ++ serVal ind v ++ serDictTail ind kvs)
end

/-- A character `json.dump` copies into a string literal verbatim: printable
and needing no escape.  Every string the renderer emits satisfies this. -/
def safeChar (c : Char) : Bool :=
  32 ≤ c.toNat && c ≠ '"' && c ≠ '\\'

mutual
/-- The emitted GeoJSON values: every string (keys included) consists of
`safeChar`s, so the serializer above is exactly `json.dump`. -/
def wfPy : PyObj → Bool
  | .num _ => true
  | .str s => s.data.all safeChar
  | .list xs => wfList xs
  | .dict kvs => wfKVs kvs

/-- `wfPy` over the elements of a list. -/
def wfList : List PyObj → Bool
  | [] => true
  | x :: xs => wfPy x && wfList xs

/-- `wfPy` over the members of a dict. -/
def wfKVs : List (String × PyObj) → Bool
  | [] => true
  | (k, v) :: kvs => k.data.all safeChar && wfPy v && wfKVs kvs
end

/-- Decimal digit test. -/
def isDigitCh (c : Char) : Bool :=
  48 ≤ c.toNat && c.toNat ≤ 57

/-- Numeric value of a digit character. -/
def digitVal (c : Char) : Nat :=
  c.toNat - 48

/-- JSON whitespace. -/
def isWs (c : Char) : Bool :=
  c = ' ' || c = '\n' || c = '\t' || c = '\r'

/-- Drop leading whitespace. -/
def skipWs : List Char → List Char
  | [] => []
  | c :: cs => if isWs c then skipWs cs else c :: cs

/-- Longest digit prefix and the remainder. -/
def takeDigits : List Char → List Char × List Char
  | [] => ([], [])
  | c :: cs =>
    if isDigitCh c then
      match takeDigits cs with
      | (ds, r) => (c :: ds, r)
    else ([], c :: cs)

/-- Value of a big-endian digit string. -/
def digitsVal (ds : List Char) : Nat :=
  ds.foldl (fun acc c => acc * 10 + digitVal c) 0

/-- Parse a nonempty digit run as a natural number. -/
def parseNatNum (s : List Char) : Option (Nat × List Char) :=
  match takeDigits s with
  | ([], _) => none
  | (ds, r) => some (digitsVal ds, r)

/-- Parse the optional `/denominator` tail of a number. -/
def afterNum (num : Int) : List Char → Option (PyObj × List Char)
  | '/' :: s =>
    match parseNatNum s with
    | some (d, r) => some (.num ((num : ℚ) / (d : ℚ)), r)
    | none => none
  | r => some (.num (num : ℚ), r)

/-- Parse a number: optional minus sign, digits, optional `/denominator`. -/
def parseNum : List Char → Option (PyObj × List Char)
  | '-' :: s =>
    match parseNatNum s with
    | some (n, r) => afterNum (-(n : Int)) r
    | none => none
  | s =>
    match parseNatNum s with
    | some (n, r) => afterNum (n : Int) r
    | none => none

/-- Scan a string body up to the closing quote. -/
def scanStr : List Char → Option (List Char × List Char)
  | [] => none
  | c :: cs =>
    if c = '"' then some ([], cs)
    else
      match scanStr cs with
      | some (s, r) => some (c :: s, r)
      | none => none

mutual
/-- Fuel-indexed JSON value parser (whitespace-tolerant recursive descent).
Each parsing function consumes one unit of fuel at entry, so any fuel at
least the node count of the input suffices. -/
def parseVal : Nat → List Char → Option (PyObj × List Char)
  | 0, _ => none
  | fuel + 1, s =>
    match skipWs s with
    | [] => none
    | c :: r =>
      if c = '"' then
        match scanStr r with
        | some (cs, r2) => some (.str (String.mk cs), r2)
        | none => none
      else if c = '[' then
        match skipWs r with
        | ']' :: r2 => some (.list [], r2)
        | _ =>
          match parseVal fuel r with
          | some (v, r2) =>
            match parseListTail fuel r2 with
            | some (vs, r3) => some (.list (v :: vs), r3)
            | none => none
          | none => none
      else if c = lbrace then
        match skipWs r with
        | [] => none
        | c2 :: r2 =>
          if c2 = rbrace then some (.dict [], r2)
          else
            match parseKV fuel r with
            | some (kv, r3) =>
              match parseDictTail fuel r3 with
              | some (kvs, r4) => some (.dict (kv :: kvs), r4)
              | none => none
            | none => none
      else parseNum (c :: r)

/-- One `"key": value` member. -/
def parseKV : Nat → List Char → Option ((String × PyObj) × List Char)
  | 0, _ => none
  | fuel + 1, s =>
    match skipWs s with
    | c :: r =>
      if c = '"' then
        match scanStr r with
        | some (k, r2) =>
          match skipWs r2 with
          | ':' :: r3 =>
            match parseVal fuel r3 with
            | some (v, r4) => some ((String.mk k, v), r4)
            | none => none
          | _ => none
        | none => none
      else none
    | [] => none

/-- Array items after the first: `, value` repeated, closed by `]`. -/
def parseListTail : Nat → List Char → Option (List PyObj × List Char)
  | 0, _ => none
  | fuel + 1, s =>
    match skipWs s with
    | c :: r =>
      if c = ']' then some ([], r)
      else if c = ',' then
        match parseVal fuel r with
        | some (v, r2) =>
          match parseListTail fuel r2 with
          | some (vs, r3) => some (v :: vs, r3)
          | none => none
        | none => none
      else none
    | [] => none

/-- Object members after the first: `, "key": value` repeated, closed by
the closing brace. -/
def parseDictTail : Nat → List Char → Option (List (String × PyObj) × List Char)
  | 0, _ => none
  | fuel + 1, s =>
    match skipWs s with
    | c :: r =>
      if c = rbrace then some ([], r)
      else if c = ',' then
        match parseKV fuel r with
        | some (kv, r2) =>
          match parseDictTail fuel r2 with
          | some (kvs, r3) => some (kv :: kvs, r3)
          | none => none
        | none => none
      else none
    | [] => none
end

/-- `json.loads` for the fragment of JSON the renderer emits: parse one value
and require only whitespace to remain. -/
def parseJson (s : String) : Option PyObj :=
  match parseVal (s.data.length + 1) s.data with
  | some (v, r) => if skipWs r = [] then some v else none
  | none => none

mutual
/-- Fuel needed by `parseVal` on a serialized value. -/
def jsize : PyObj → Nat
  | .num _ => 1
  | .str _ => 1
  | .list [] => 1
  | .list (x :: xs) => 1 + jsize x + tsize xs
  | .dict [] => 1
  | .dict ((_, v) :: kvs) => 1 + (1 + jsize v) + dsize kvs

/-- Fuel needed by `parseListTail` on a serialized array tail. -/
def tsize : List PyObj → Nat
  | [] => 1
  | x :: xs => 1 + jsize x + tsize xs

/-- Fuel needed by `parseDictTail` on a serialized object tail. -/
def dsize : List (String × PyObj) → Nat
  | [] => 1
  | (_, v) :: kvs => 1 + (1 + jsize v) + dsize kvs
end

/-- `simulation_metadata` fields read by the renderer. -/
structure Config where
  name : String
  num_episodes : Nat
  num_steps_per_episode : Nat
deriving Repr, DecidableEq

/-- The options mapping passed to `GeoPlot.__init__`. -/
structure Options where
  cesium_token : String
  step_time : ℚ
  coordinates : String
  feature : String
  visualization_type : String
deriving Repr, DecidableEq

/-- The `GeoPlot` engine state after `__init__`. -/
structure GeoPlot where
  config : Config
  cesium_token : String
  step_time : ℚ
  entity_position : String
  entity_property : String
  visualization_type : String
deriving Repr, DecidableEq

/-- `GeoPlot.__init__`: destructure the options into the engine fields. -/
def GeoPlot.ofOptions (config : Config) (options : Options) : GeoPlot :=
  { config := config
    cesium_token := options.cesium_token
    step_time := options.step_time
    entity_position := options.coordinates
    entity_property := options.feature
    visualization_type := options.visualization_type }

/-- The synthesized timestamp list: `num_episodes * num_steps_per_episode`
entries spaced `step_time` seconds from the wall-clock start. -/
def GeoPlot.timestamps (gp : GeoPlot) (start_time : ℚ) : List ℚ :=
  (List.range (gp.config.num_episodes * gp.config.num_steps_per_episode)).map
    (fun i : Nat => start_time + (i : ℚ) * gp.step_time)

/-- Python exceptions that can escape `render`, tagged by raise site:
`pathError` is `KeyError`/`TypeError` inside `get_by_path`, `arrayError` is
numpy's `ValueError` on non-numeric or ragged data, `typeError` is iterating
or indexing a scalar, and the four index errors are Python `IndexError` at
`state_trajectory[i][-1]`, `coord[0]`/`coord[1]`, `value_list[i]` and
`timestamps[0]`/`timestamps[-1]` respectively. -/
inductive RenderErr where
  | pathError
  | arrayError
  | typeError
  | keyError
  | episodeIndexError
  | coordIndexError
  | valueIndexError
  | timestampIndexError
deriving Repr, DecidableEq

/-- Contents of the two output files after a `render` call (`none`: the file
was never created; `some s`: the file exists holding exactly `s`). -/
structure FS where
  geojson : Option String
  html : Option String
deriving Repr, DecidableEq

/-- Python `coord[i]` for the objects reachable here: list and string
indexing succeed in range, numbers are not subscriptable (`TypeError`), and an
integer key into a string-keyed dict raises `KeyError`. -/
def pyGetItem (o : PyObj) (i : Nat) : Except RenderErr PyObj :=
  match o with
  | .list xs =>
    match xs[i]? with
    | some x => .ok x
    | none => .error .coordIndexError
  | .str s =>
    match s.data[i]? with
    | some c => .ok (.str (String.mk [c]))
    | none => .error .coordIndexError
  | .num _ => .error .typeError
  | .dict _ => .error .keyError

/-- The Feature dict literal of lines 87–98 of the source. -/
def featureDict (c1 c0 : PyObj) (v : ℚ) (t : ℚ) : PyObj :=
  .dict [("type", .str "Feature"),
         ("geometry", .dict [("type", .str "Point"),
                             ("coordinates", .list [c1, c0])]),
         ("properties", .dict [("value", .num v),
                               ("time", .str (isoformat t))])]

/-- Build one Feature for entity `i`: evaluate `coord[1]`, `coord[0]`, then
`value_list[i]`, in Python's evaluation order. -/
def mkFeature (i : Nat) (coord : PyObj) (t : ℚ) (value_list : List ℚ) :
    Except RenderErr PyObj :=
  match pyGetItem coord 1 with
  | .error e => .error e
  | .ok c1 =>
    match pyGetItem coord 0 with
    | .error e => .error e
    | .ok c0 =>
      match value_list[i]? with
      | none => .error .valueIndexError
      | some v => .ok (featureDict c1 c0 v t)

/-- The inner loop of lines 85–98: one Feature per `zip(timestamps, values)`
pair for entity `i`. -/
def mkFeatures (i : Nat) (coord : PyObj) : List (ℚ × List ℚ) → Except RenderErr (List PyObj)
  | [] => .ok []
  | (t, vl) :: rest =>
    match mkFeature i coord t vl with
    | .error e => .error e
    | .ok f =>
      match mkFeatures i coord rest with
      | .error e => .error e
      | .ok fs => .ok (f :: fs)

/-- The outer loop of lines 83–99: one FeatureCollection per entry of the
final coordinate array, entity indices counting up from `i`. -/
def assembleAll (pairs : List (ℚ × List ℚ)) : Nat → List PyObj → Except RenderErr (List PyObj)
  | _, [] => .ok []
  | i, coord :: rest =>
    match mkFeatures i coord pairs with
    | .error e => .error e
    | .ok fs =>
      match assembleAll pairs (i + 1) rest with
      | .error e => .error e
      | .ok gjs => .ok (.dict [("type", .str "FeatureCollection"),
                               ("features", .list fs)] :: gjs)

/-- One iteration of the loop of lines 61–69: read the episode's last state,
overwrite `coords` with the position array and append the flattened property
array to `values`. -/
def extractStep (gp : GeoPlot) (episode : List PyObj) (values : List (List ℚ)) :
    Except RenderErr (PyObj × List (List ℚ)) :=
  match episode.getLast? with
  | none => .error .episodeIndexError
  | some final_state =>
    match read_var final_state gp.entity_position with
    | none => .error .pathError
    | some posVal =>
      match npArrayTolist posVal with
      | none => .error .arrayError
      | some coords =>
        match read_var final_state gp.entity_property with
        | none => .error .pathError
        | some propVal =>
          match npArrayTolist propVal with
          | none => .error .arrayError
          | some propArr => .ok (coords, values ++ [npFlatten propArr])

/-- The loop of lines 61–69 over the processed episodes, threading the
(overwritten) `coords` and the accumulated `values`. -/
def extractLoop (gp : GeoPlot) : List (List PyObj) → PyObj → List (List ℚ) →
    Except RenderErr (PyObj × List (List ℚ))
  | [], coords, values => .ok (coords, values)
  | ep :: rest, _coords, values =>
    match extractStep gp ep values with
    | .error e => .error e
    | .ok cv => extractLoop gp rest cv.1 cv.2

/-- The HTML template constant of lines 23–28 of the source (its body is the
literal five-line string, which contains no `$` placeholder). -/
def geoplot_template : String :=
  " \n<!doctype html>\n<html lang=\"en\">\n...\n</html>\n"

/-- `string.Template(geoplot_template).substitute(mapping)`: the template
contains no placeholder, so substitution returns it unchanged whatever the
(already evaluated) mapping holds. -/
def substituteTemplate (_accessToken _startTime _stopTime _data _visualType : String) :
    String :=
  geoplot_template

/-- `GeoPlot.render(state_trajectory)`.  `start_time` is the wall-clock value
`pd.Timestamp.utcnow()` reads at call time.  Returns the assembled
FeatureCollections and timestamps (or the escaping exception) together with
the contents of the two output files: the `.geojson` file is written after
assembly, and the `.html` file is created (truncated to empty) before
`timestamps[0]` is evaluated, so an empty timestamp list leaves a complete
`.geojson` and an empty `.html`. -/
def render (gp : GeoPlot) (state_trajectory : List (List PyObj)) (start_time : ℚ) :
    Except RenderErr (List PyObj × List ℚ) × FS :=
  match extractLoop gp (state_trajectory.take (state_trajectory.length - 1)) (.list []) [] with
  | .error e => (.error e, ⟨none, none⟩)
  | .ok (coordsObj, values) =>
    match coordsObj with
    | .list cs =>
      match assembleAll ((gp.timestamps start_time).zip values) 0 cs with
      | .error e => (.error e, ⟨none, none⟩)
      | .ok geojsons =>
        match gp.timestamps start_time with
        | [] =>
          (.error .timestampIndexError,
           ⟨some (String.mk (serVal 0 (.list geojsons))), some ""⟩)
        | t0 :: trest =>
          (.ok (geojsons, t0 :: trest),
           ⟨some (String.mk (serVal 0 (.list geojsons))),
            some (substituteTemplate gp.cesium_token (isoformat t0)
              (isoformat ((t0 :: trest).getLast (by simp)))
              (String.mk (serVal 0 (.list geojsons))) gp.visualization_type)⟩)
    | _ => (.error .typeError, ⟨none, none⟩)

/-- Dict lookup on a `PyObj`, for stating properties of the emitted GeoJSON. -/
def dictGet (o : PyObj) (k : String) : Option PyObj :=
  match o with
  | .dict kvs => kvs.lookup k
  | _ => none

/-- The `features` member of a FeatureCollection. -/
def featuresOf (fc : PyObj) : Option PyObj :=
  dictGet fc "features"

/-- The `geometry.coordinates` member of a Feature. -/
def geomCoordsOf (f : PyObj) : Option PyObj :=
  (dictGet f "geometry").bind (fun g => dictGet g "coordinates")

/-- The `properties.value` member of a Feature. -/
def valueOf (f : PyObj) : Option PyObj :=
  (dictGet f "properties").bind (fun p => dictGet p "value")

/-- Guard on the text following a serialized number: parsing must stop there,
so it may not begin with a digit or `/`. -/
def numGuard : List Char → Bool
  | [] => true
  | c :: _ => !(isDigitCh c) && c != '/'

/-- Guard on the text following a serialized digit run. -/
def notDigitHead : List Char → Bool
  | [] => true
  | c :: _ => !(isDigitCh c)


/-- A simulation state fixture: one entity at `[1, 2]`, property value `3`. -/
def stA : PyObj :=
  .dict [("p", .list [.list [.num 1, .num 2]]), ("f", .list [.num 3])]

/-- A renderer fixture: one episode of one step configured, unit step time. -/
def gpA : GeoPlot :=
  { config := { name := "sim", num_episodes := 1, num_steps_per_episode := 1 }
    cesium_token := "tok"
    step_time := 1
    entity_position := "p"
    entity_property := "f"
    visualization_type := "scatter" }

/-- The FeatureCollection `render gpA [[stA], [stA]] 0` produces. -/
def fcA : PyObj :=
  .dict [("type", .str "FeatureCollection"),
         ("features", .list [featureDict (.num 2) (.num 1) 3 0])]

/-- A renderer fixture with `step_time = 0` and two configured steps. -/
def gpB : GeoPlot :=
  { config := { name := "sim", num_episodes := 2, num_steps_per_episode := 1 }
    cesium_token := "tok"
    step_time := 0
    entity_position := "p"
    entity_property := "f"
    visualization_type := "scatter" }

/-- A renderer fixture with positive step time and two configured steps. -/
def gpD : GeoPlot :=
  { config := { name := "sim", num_episodes := 2, num_steps_per_episode := 1 }
    cesium_token := "tok"
    step_time := 1
    entity_position := "p"
    entity_property := "f"
    visualization_type := "scatter" }

/-- A renderer fixture whose configured episode count is zero, so the
synthesized timestamp list is empty. -/
def gpC : GeoPlot :=
  { config := { name := "sim", num_episodes := 0, num_steps_per_episode := 5 }
    cesium_token := "tok"
    step_time := 1
    entity_position := "p"
    entity_property := "f"
    visualization_type := "scatter" }

/-- A state fixture with zero entities. -/
def stC : PyObj :=
  .dict [("p", .list []), ("f", .list [])]

/-- A state fixture with two entities but only one property scalar, violating
the per-entity value precondition. -/
def st10 : PyObj :=
  .dict [("p", .list [.list [.num 1, .num 2], .list [.num 3, .num 4]]),
         ("f", .list [.num 10])]


/-- The file-system outcome of `render gpA [[stA], [stA]] 0`. -/
def fsA : FS :=
  ⟨some (String.mk (serVal 0 (.list [fcA]))), some geoplot_template⟩

lemma digitVal_digitChar {d : Nat} (h : d < 10) : digitVal (digitChar d) = d := by
  interval_cases d <;> decide

lemma isDigitCh_digitChar (d : Nat) : isDigitCh (digitChar d) = true := by
  unfold digitChar
  split <;> decide

lemma safeChar_digitChar (d : Nat) : safeChar (digitChar d) = true := by
  unfold digitChar
  split <;> decide

lemma natCharsAux_all_digits (fuel : Nat) :
    ∀ n, (natCharsAux fuel n).all isDigitCh = true := by
  induction fuel with
  | zero => intro n; rfl
  | succ fuel ih =>
    intro n
    unfold natCharsAux
    split
    · rfl
    · simp only [List.all_append, Bool.and_eq_true]
      exact ⟨ih _, by simp [isDigitCh_digitChar]⟩

lemma natChars_all_digits (n : Nat) : (natChars n).all isDigitCh = true := by
  unfold natChars
  split
  · decide
  · exact natCharsAux_all_digits n n

lemma digitsVal_append_single (ds : List Char) (c : Char) :
    digitsVal (ds ++ [c]) = digitsVal ds * 10 + digitVal c := by
  simp [digitsVal, List.foldl_append]

lemma digitsVal_natCharsAux (fuel : Nat) :
    ∀ n, n ≤ fuel → digitsVal (natCharsAux fuel n) = n := by
  induction fuel with
  | zero => intro n h; interval_cases n; rfl
  | succ fuel ih =>
    intro n h
    unfold natCharsAux
    split
    · simpa [digitsVal] using (by omega : 0 = n)
    · rename_i hn
      rw [digitsVal_append_single, ih (n / 10) (by omega),
        digitVal_digitChar (Nat.mod_lt _ (by omega))]
      omega

lemma digitsVal_natChars (n : Nat) : digitsVal (natChars n) = n := by
  unfold natChars
  split
  · simp_all [digitsVal, digitVal]
  · exact digitsVal_natCharsAux n n le_rfl

lemma natChars_ne_nil (n : Nat) : natChars n ≠ [] := by
  unfold natChars
  split
  · simp
  · rename_i hn
    cases n with
    | zero => omega
    | succ m =>
      unfold natCharsAux
      simp [hn]

lemma takeDigits_append (ds rest : List Char) (h1 : ds.all isDigitCh = true)
    (h2 : notDigitHead rest = true) : takeDigits (ds ++ rest) = (ds, rest) := by
  induction ds with
  | nil =>
    cases rest with
    | nil => rfl
    | cons c cs =>
      simp only [notDigitHead, Bool.not_eq_true'] at h2
      simp [takeDigits, h2]
  | cons d ds ih =>
    simp only [List.all_cons, Bool.and_eq_true] at h1
    simp [takeDigits, h1.1, ih h1.2]

lemma parseNatNum_append (n : Nat) (rest : List Char) (h : notDigitHead rest = true) :
    parseNatNum (natChars n ++ rest) = some (n, rest) := by
  unfold parseNatNum
  rw [takeDigits_append _ _ (natChars_all_digits n) h]
  have hne := natChars_ne_nil n
  cases hc : natChars n with
  | nil => exact absurd hc hne
  | cons c cs => simp [← hc, digitsVal_natChars]

lemma notDigitHead_of_numGuard {r : List Char} (h : numGuard r = true) :
    notDigitHead r = true := by
  cases r with
  | nil => rfl
  | cons c cs =>
    simp only [numGuard, Bool.and_eq_true] at h
    simp [notDigitHead, h.1]

lemma afterNum_no_slash (num : Int) (rest : List Char) (h : numGuard rest = true) :
    afterNum num rest = some (.num (num : ℚ), rest) := by
  cases rest with
  | nil => rfl
  | cons c cs =>
    simp only [numGuard, Bool.and_eq_true, bne_iff_ne] at h
    unfold afterNum
    split
    · rename_i s heq
      injection heq with h1 _
      exact absurd h1 h.2
    · rfl

lemma natChars_head_digit {n : Nat} {c : Char} {t : List Char}
    (h : natChars n = c :: t) : isDigitCh c = true := by
  have hall := natChars_all_digits n
  rw [h] at hall
  simp only [List.all_cons, Bool.and_eq_true] at hall
  exact hall.1

lemma intChars_ne_nil (i : Int) : intChars i ≠ [] := by
  unfold intChars
  split
  · simp
  · exact natChars_ne_nil _

lemma intChars_head {i : Int} {c : Char} {t : List Char}
    (h : intChars i = c :: t) : isDigitCh c = true ∨ c = '-' := by
  unfold intChars at h
  split at h
  · right
    exact (List.cons.injEq .. ▸ h).1.symm
  · left
    exact natChars_head_digit h

lemma parseNum_intChars_cont (i : Int) (tail : List Char)
    (h : notDigitHead tail = true) :
    parseNum (intChars i ++ tail) = afterNum i tail := by
  unfold intChars
  split
  · rename_i hneg
    show parseNum ('-' :: (natChars i.natAbs ++ tail)) = _
    unfold parseNum
    split
    · rename_i s heq
      injection heq with _ h2
      rw [← h2, parseNatNum_append _ _ h]
      show afterNum (-((i.natAbs : Nat) : Int)) tail = _
      have he : -((i.natAbs : Nat) : Int) = i := by omega
      rw [he]
    · rename_i hno
      exact (hno _ rfl).elim
  · rename_i hpos
    have hd : ∀ c t, natChars i.natAbs ++ tail = c :: t → isDigitCh c = true := by
      intro c t hct
      cases hnc : natChars i.natAbs with
      | nil => exact absurd hnc (natChars_ne_nil _)
      | cons c0 t0 =>
        rw [hnc, List.cons_append] at hct
        injection hct with h1 _
        rw [← h1]
        exact natChars_head_digit hnc
    unfold parseNum
    split
    · rename_i s heq
      have := hd '-' s heq
      exact absurd this (by decide)
    · rw [parseNatNum_append _ _ h]
      show afterNum ((i.natAbs : Nat) : Int) tail = _
      have he : ((i.natAbs : Nat) : Int) = i := by omega
      rw [he]

lemma rat_intCast_num {q : ℚ} (h : q.den = 1) : ((q.num : Int) : ℚ) = q := by
  have h2 := Rat.num_div_den q
  rw [h] at h2
  simpa using h2

lemma parseNum_ratChars (q : ℚ) (rest : List Char) (h : numGuard rest = true) :
    parseNum (ratChars q ++ rest) = some (.num q, rest) := by
  unfold ratChars
  split
  · rename_i hden
    rw [parseNum_intChars_cont _ _ (notDigitHead_of_numGuard h),
      afterNum_no_slash _ _ h, rat_intCast_num hden]
  · rename_i hden
    rw [List.append_assoc, List.cons_append,
      parseNum_intChars_cont _ _ (by rfl)]
    unfold afterNum
    split
    · rename_i s heq
      injection heq with _ h2
      rw [← h2, parseNatNum_append _ _ (notDigitHead_of_numGuard h)]
      show some (PyObj.num ((q.num : ℚ) / ((q.den : Nat) : ℚ)), rest) = _
      rw [Rat.num_div_den q]
    · rename_i hno
      exact (hno _ rfl).elim

lemma scanStr_append (s rest : List Char) (h : s.all safeChar = true) :
    scanStr (s ++ '"' :: rest) = some (s, rest) := by
  induction s with
  | nil => rfl
  | cons c cs ih =>
    simp only [List.all_cons, Bool.and_eq_true] at h
    have hcq : c ≠ '"' := by
      have h1 := h.1
      simp only [safeChar, Bool.and_eq_true, decide_eq_true_eq] at h1
      exact h1.1.2
    show scanStr (c :: (cs ++ '"' :: rest)) = _
    unfold scanStr
    rw [if_neg hcq, ih h.2]

lemma skipWs_append_ws (ws s : List Char) (h : ws.all isWs = true) :
    skipWs (ws ++ s) = skipWs s := by
  induction ws with
  | nil => rfl
  | cons c cs ih =>
    simp only [List.all_cons, Bool.and_eq_true] at h
    simp [skipWs, h.1, ih h.2]

lemma skipWs_cons_not_ws {c : Char} (s : List Char) (h : isWs c = false) :
    skipWs (c :: s) = c :: s := by
  simp [skipWs, h]

lemma nlIndent_all_ws (n : Nat) : (nlIndent n).all isWs = true := by
  simp only [nlIndent, List.all_cons, Bool.and_eq_true]
  refine ⟨by decide, ?_⟩
  simp only [List.all_eq_true]
  intro c hc
  rw [List.eq_of_mem_replicate hc]
  decide

lemma parseVal_wsDrop (f : Nat) (ws s : List Char) (h : ws.all isWs = true) :
    parseVal f (ws ++ s) = parseVal f s := by
  cases f with
  | zero => rfl
  | succ f =>
    simp only [parseVal]
    rw [skipWs_append_ws _ _ h]

lemma parseListTail_wsDrop (f : Nat) (ws s : List Char) (h : ws.all isWs = true) :
    parseListTail f (ws ++ s) = parseListTail f s := by
  cases f with
  | zero => rfl
  | succ f =>
    simp only [parseListTail]
    rw [skipWs_append_ws _ _ h]

lemma parseDictTail_wsDrop (f : Nat) (ws s : List Char) (h : ws.all isWs = true) :
    parseDictTail f (ws ++ s) = parseDictTail f s := by
  cases f with
  | zero => rfl
  | succ f =>
    simp only [parseDictTail]
    rw [skipWs_append_ws _ _ h]

lemma isWs_false_of_digit {c : Char} (h : isDigitCh c = true) : isWs c = false := by
  simp only [isDigitCh, Bool.and_eq_true, decide_eq_true_eq] at h
  simp only [isWs, Bool.or_eq_false_iff, decide_eq_false_iff_not]
  refine ⟨⟨⟨?_, ?_⟩, ?_⟩, ?_⟩ <;> rintro rfl <;> revert h <;> decide

lemma ne_rbracket_of_digit {c : Char} (h : isDigitCh c = true) : c ≠ ']' := by
  rintro rfl
  revert h
  decide

lemma ratChars_ne_nil (q : ℚ) : ratChars q ≠ [] := by
  unfold ratChars
  split
  · exact intChars_ne_nil _
  · intro hc
    exact intChars_ne_nil q.num (List.append_eq_nil.mp hc).1

lemma ratChars_head {q : ℚ} {c : Char} {t : List Char}
    (h : ratChars q = c :: t) : isDigitCh c = true ∨ c = '-' := by
  unfold ratChars at h
  split at h
  · exact intChars_head h
  · cases hic : intChars q.num with
    | nil => exact absurd hic (intChars_ne_nil _)
    | cons c0 t0 =>
      rw [hic, List.cons_append] at h
      injection h with h1 _
      rw [← h1]
      exact intChars_head hic

lemma serVal_head (ind : Nat) (v : PyObj) :
    ∃ c t, serVal ind v = c :: t ∧ isWs c = false ∧ c ≠ ']' := by
  cases v with
  | num q =>
    cases hc : ratChars q with
    | nil => exact absurd hc (ratChars_ne_nil q)
    | cons c t =>
      refine ⟨c, t, hc, ?_, ?_⟩
      · rcases ratChars_head hc with h | h
        · exact isWs_false_of_digit h
        · rw [h]; decide
      · rcases ratChars_head hc with h | h
        · exact ne_rbracket_of_digit h
        · rw [h]; decide
  | str s => exact ⟨'"', s.data ++ ['"'], rfl, by decide, by decide⟩
  | list xs =>
    cases xs with
    | nil => exact ⟨'[', [']'], rfl, by decide, by decide⟩
    | cons x rest =>
      exact ⟨'[', _, rfl, by decide, by decide⟩
  | dict kvs =>
    cases kvs with
    | nil => exact ⟨lbrace, [rbrace], rfl, by decide, by decide⟩
    | cons kv rest =>
      cases kv with
      | mk k v => exact ⟨lbrace, _, rfl, by decide, by decide⟩

lemma string_mk_data (s : String) : String.mk s.data = s := by
  cases s
  rfl

lemma jsize_pos (v : PyObj) : 1 ≤ jsize v := by
  cases v with
  | num q => simp [jsize]
  | str s => simp [jsize]
  | list xs => cases xs <;> simp only [jsize] <;> omega
  | dict kvs =>
    cases kvs with
    | nil => simp [jsize]
    | cons kv kvs => cases kv; simp only [jsize]; omega

lemma tsize_pos (xs : List PyObj) : 1 ≤ tsize xs := by
  cases xs <;> simp only [tsize] <;> omega

lemma dsize_pos (kvs : List (String × PyObj)) : 1 ≤ dsize kvs := by
  cases kvs with
  | nil => simp only [dsize]; omega
  | cons kv kvs => cases kv; simp only [dsize]; omega

lemma nlIndent_length (n : Nat) : (nlIndent n).length = 1 + 2 * n := by
  simp [nlIndent]
  omega

mutual
theorem jsize_le_serVal : ∀ (ind : Nat) (v : PyObj), jsize v ≤ (serVal ind v).length + 1
  | _, .num q => by simp [jsize]
  | _, .str s => by simp [jsize]
  | _, .list [] => by simp [jsize]
  | ind, .list (x :: xs) => by
    have h1 := jsize_le_serVal (ind + 1) x
    have h2 := tsize_le_serListTail (ind + 1) xs
    simp only [jsize, serVal, List.length_cons, List.length_append, nlIndent_length]
    omega
  | _, .dict [] => by simp [jsize]
  | ind, .dict ((k, v) :: kvs) => by
    have h1 := jsize_le_serVal (ind + 1) v
    have h2 := dsize_le_serDictTail (ind + 1) kvs
    simp only [jsize, serVal, List.length_cons, List.length_append, nlIndent_length]
    omega

theorem tsize_le_serListTail : ∀ (ind : Nat) (xs : List PyObj),
    tsize xs ≤ (serListTail ind xs).length + 1
  | _, [] => by simp [tsize, serListTail]
  | ind, x :: xs => by
    have h1 := jsize_le_serVal ind x
    have h2 := tsize_le_serListTail ind xs
    simp only [tsize, serListTail, List.length_cons, List.length_append, nlIndent_length]
    omega

theorem dsize_le_serDictTail : ∀ (ind : Nat) (kvs : List (String × PyObj)),
    dsize kvs ≤ (serDictTail ind kvs).length + 1
  | _, [] => by simp [dsize, serDictTail]
  | ind, (k, v) :: kvs => by
    have h1 := jsize_le_serVal ind v
    have h2 := dsize_le_serDictTail ind kvs
    simp only [dsize, serDictTail, List.length_cons, List.length_append, nlIndent_length]
    omega
end

lemma numGuard_ws_head {c : Char} (h : isWs c = true) (s : List Char) :
    numGuard (c :: s) = true := by
  simp only [isWs, Bool.or_eq_true, decide_eq_true_eq] at h
  rcases h with ⟨⟨h | h⟩ | h⟩ | h <;> subst h <;> rfl

lemma numGuard_serListTail (ind : Nat) (xs : List PyObj) (ws rest : List Char)
    (hws : ws.all isWs = true) :
    numGuard (serListTail ind xs ++ (ws ++ ']' :: rest)) = true := by
  cases xs with
  | nil =>
    simp only [serListTail, List.nil_append]
    cases ws with
    | nil => rfl
    | cons w ws2 =>
      simp only [List.all_cons, Bool.and_eq_true] at hws
      exact numGuard_ws_head hws.1 _
  | cons x xs => rfl

lemma numGuard_serDictTail (ind : Nat) (kvs : List (String × PyObj)) (ws rest : List Char)
    (hws : ws.all isWs = true) :
    numGuard (serDictTail ind kvs ++ (ws ++ rbrace :: rest)) = true := by
  cases kvs with
  | nil =>
    simp only [serDictTail, List.nil_append]
    cases ws with
    | nil => rfl
    | cons w ws2 =>
      simp only [List.all_cons, Bool.and_eq_true] at hws
      exact numGuard_ws_head hws.1 _
  | cons kv kvs => cases kv; rfl

lemma parseKV_wsDrop (f : Nat) (ws s : List Char) (h : ws.all isWs = true) :
    parseKV f (ws ++ s) = parseKV f s := by
  cases f with
  | zero => rfl
  | succ f =>
    simp only [parseKV]
    rw [skipWs_append_ws _ _ h]

lemma numHead_facts {c : Char} (h : isDigitCh c = true ∨ c = '-') :
    c ≠ '"' ∧ c ≠ '[' ∧ c ≠ lbrace := by
  rcases h with h | h
  · refine ⟨?_, ?_, ?_⟩ <;> rintro rfl <;> revert h <;> decide
  · subst h
    exact ⟨by decide, by decide, by decide⟩

lemma parseVal_quote (f : Nat) (r : List Char) :
    parseVal (f + 1) ('"' :: r) =
      (match scanStr r with
       | some (cs, r2) => some (.str (String.mk cs), r2)
       | none => none) := rfl

lemma parseVal_lbracket (f : Nat) (r : List Char) :
    parseVal (f + 1) ('[' :: r) =
      (match skipWs r with
       | ']' :: r2 => some (.list [], r2)
       | _ =>
         match parseVal f r with
         | some (v, r2) =>
           match parseListTail f r2 with
           | some (vs, r3) => some (.list (v :: vs), r3)
           | none => none
         | none => none) := rfl

lemma parseVal_lbrace (f : Nat) (r : List Char) :
    parseVal (f + 1) (lbrace :: r) =
      (match skipWs r with
       | [] => none
       | c2 :: r2 =>
         if c2 = rbrace then some (.dict [], r2)
         else
           match parseKV f r with
           | some (kv, r3) =>
             match parseDictTail f r3 with
             | some (kvs, r4) => some (.dict (kv :: kvs), r4)
             | none => none
           | none => none) := rfl

lemma parseVal_numhead (f : Nat) {c : Char} (r : List Char) (h1 : isWs c = false)
    (h2 : c ≠ '"') (h3 : c ≠ '[') (h4 : c ≠ lbrace) :
    parseVal (f + 1) (c :: r) = parseNum (c :: r) := by
  simp only [parseVal]
  rw [skipWs_cons_not_ws _ h1]
  simp only [if_neg h2, if_neg h3, if_neg h4]

lemma parseListTail_rbracket (f : Nat) (r : List Char) :
    parseListTail (f + 1) (']' :: r) = some ([], r) := rfl

lemma parseListTail_comma (f : Nat) (r : List Char) :
    parseListTail (f + 1) (',' :: r) =
      (match parseVal f r with
       | some (v, r2) =>
         match parseListTail f r2 with
         | some (vs, r3) => some (v :: vs, r3)
         | none => none
       | none => none) := rfl

lemma parseDictTail_rbrace (f : Nat) (r : List Char) :
    parseDictTail (f + 1) (rbrace :: r) = some ([], r) := rfl

lemma parseDictTail_comma (f : Nat) (r : List Char) :
    parseDictTail (f + 1) (',' :: r) =
      (match parseKV f r with
       | some (kv, r2) =>
         match parseDictTail f r2 with
         | some (kvs, r3) => some (kv :: kvs, r3)
         | none => none
       | none => none) := rfl

lemma parseKV_quote (f : Nat) (r : List Char) :
    parseKV (f + 1) ('"' :: r) =
      (match scanStr r with
       | some (k, r2) =>
         (match skipWs r2 with
          | ':' :: r3 =>
            match parseVal f r3 with
            | some (v, r4) => some ((String.mk k, v), r4)
            | none => none
          | _ => none)
       | none => none) := rfl

lemma parseVal_space (f : Nat) (s : List Char) :
    parseVal f (' ' :: s) = parseVal f s := by
  have h : (' ' :: s) = [' '] ++ s := rfl
  rw [h]
  exact parseVal_wsDrop f [' '] s (by decide)

theorem parse_ser (fuel : Nat) :
    (∀ ind v rest, jsize v ≤ fuel → wfPy v = true → numGuard rest = true →
       parseVal fuel (serVal ind v ++ rest) = some (v, rest)) ∧
    (∀ ind (k : String) (v : PyObj) rest, 1 + jsize v ≤ fuel →
       k.data.all safeChar = true → wfPy v = true → numGuard rest = true →
       parseKV fuel ('"' :: (k.data ++ ('"' :: ':' :: ' ' :: (serVal ind v ++ rest))))
         = some ((k, v), rest)) ∧
    (∀ ind xs ws rest, tsize xs ≤ fuel → wfList xs = true → ws.all isWs = true →
       parseListTail fuel (serListTail ind xs ++ (ws ++ ']' :: rest)) = some (xs, rest)) ∧
    (∀ ind kvs ws rest, dsize kvs ≤ fuel → wfKVs kvs = true → ws.all isWs = true →
       parseDictTail fuel (serDictTail ind kvs ++ (ws ++ rbrace :: rest))
         = some (kvs, rest)) := by
  induction fuel with
  | zero =>
    refine ⟨?_, ?_, ?_, ?_⟩
    · intro ind v rest hsz _ _
      exact absurd hsz (by have := jsize_pos v; omega)
    · intro ind k v rest hsz _ _ _
      exact absurd hsz (by have := jsize_pos v; omega)
    · intro ind xs ws rest hsz _ _
      exact absurd hsz (by have := tsize_pos xs; omega)
    · intro ind kvs ws rest hsz _ _
      exact absurd hsz (by have := dsize_pos kvs; omega)
  | succ fuel ih =>
    obtain ⟨ihP, ihK, ihQ, ihR⟩ := ih
    refine ⟨?_, ?_, ?_, ?_⟩
    · -- parseVal on a serialized value
      intro ind v rest hsz hwf hg
      cases v with
      | num q =>
        obtain ⟨c, t, hc, hcws, -⟩ := serVal_head ind (.num q)
        have hc2 : ratChars q = c :: t := hc
        obtain ⟨hq1, hq2, hq3⟩ := numHead_facts (ratChars_head hc2)
        have harr : serVal ind (.num q) ++ rest = c :: (t ++ rest) := by
          rw [hc, List.cons_append]
        rw [harr, parseVal_numhead fuel _ hcws hq1 hq2 hq3]
        have hb : c :: (t ++ rest) = ratChars q ++ rest := by
          rw [hc2, List.cons_append]
        rw [hb]
        exact parseNum_ratChars q rest hg
      | str s =>
        have harr : serVal ind (.str s) ++ rest = '"' :: (s.data ++ ('"' :: rest)) := by
          show ('"' :: (s.data ++ ['"'])) ++ rest = _
          simp [List.append_assoc]
        rw [harr, parseVal_quote, scanStr_append s.data rest (by simpa [wfPy] using hwf)]
      | list xs =>
        cases xs with
        | nil =>
          have harr : serVal ind (.list []) ++ rest = '[' :: (']' :: rest) := rfl
          rw [harr, parseVal_lbracket, skipWs_cons_not_ws _ (by decide)]
          rfl
        | cons x xs =>
          have harr : serVal ind (.list (x :: xs)) ++ rest
              = '[' :: (nlIndent (ind + 1) ++ (serVal (ind + 1) x ++
                  (serListTail (ind + 1) xs ++ (nlIndent ind ++ (']' :: rest))))) := by
            simp only [serVal]
            simp [List.append_assoc]
          rw [harr, parseVal_lbracket]
          obtain ⟨c, t, hc, hcws, hcnr⟩ := serVal_head (ind + 1) x
          have hskipr : skipWs (nlIndent (ind + 1) ++ (serVal (ind + 1) x ++
              (serListTail (ind + 1) xs ++ (nlIndent ind ++ (']' :: rest)))))
              = c :: (t ++ (serListTail (ind + 1) xs ++ (nlIndent ind ++ (']' :: rest)))) := by
            rw [skipWs_append_ws _ _ (nlIndent_all_ws _), hc, List.cons_append]
            exact skipWs_cons_not_ws _ hcws
          rw [hskipr]
          simp only [jsize] at hsz
          have hwf2 : wfPy x = true ∧ wfList xs = true := by
            have : wfPy (.list (x :: xs)) = (wfPy x && wfList xs) := rfl
            rw [this] at hwf
            exact ⟨(Bool.and_eq_true _ _ ▸ hwf).1, (Bool.and_eq_true _ _ ▸ hwf).2⟩
          split
          · rename_i r2 heq
            injection heq with h1 _
            exact absurd h1 hcnr
          · rw [parseVal_wsDrop fuel _ _ (nlIndent_all_ws _),
              ihP (ind + 1) x _ (by omega) hwf2.1
                (numGuard_serListTail _ _ _ _ (nlIndent_all_ws _))]
            simp only [ihQ (ind + 1) xs (nlIndent ind) rest (by omega) hwf2.2
              (nlIndent_all_ws _)]
      | dict kvs =>
        cases kvs with
        | nil =>
          have harr : serVal ind (.dict []) ++ rest = lbrace :: (rbrace :: rest) := rfl
          rw [harr, parseVal_lbrace, skipWs_cons_not_ws _ (by decide)]
          rfl
        | cons kv kvs =>
          obtain ⟨k, v⟩ := kv
          have harr : serVal ind (.dict ((k, v) :: kvs)) ++ rest
              = lbrace :: (nlIndent (ind + 1) ++
                  ('"' :: (k.data ++ ('"' :: ':' :: ' ' :: (serVal (ind + 1) v ++
                    (serDictTail (ind + 1) kvs ++ (nlIndent ind ++ (rbrace :: rest)))))))) := by
            simp only [serVal]
            simp [List.append_assoc]
          rw [harr, parseVal_lbrace]
          have hskipr : skipWs (nlIndent (ind + 1) ++
              ('"' :: (k.data ++ ('"' :: ':' :: ' ' :: (serVal (ind + 1) v ++
                (serDictTail (ind + 1) kvs ++ (nlIndent ind ++ (rbrace :: rest))))))))
              = '"' :: (k.data ++ ('"' :: ':' :: ' ' :: (serVal (ind + 1) v ++
                (serDictTail (ind + 1) kvs ++ (nlIndent ind ++ (rbrace :: rest)))))) := by
            rw [skipWs_append_ws _ _ (nlIndent_all_ws _)]
            exact skipWs_cons_not_ws _ (by decide)
          rw [hskipr]
          have hne : ('"' : Char) ≠ rbrace := by decide
          simp only [if_neg hne]
          simp only [jsize] at hsz
          have hwf2 : k.data.all safeChar = true ∧ wfPy v = true ∧ wfKVs kvs = true := by
            have he : wfPy (.dict ((k, v) :: kvs))
                = (k.data.all safeChar && wfPy v && wfKVs kvs) := rfl
            rw [he] at hwf
            simp only [Bool.and_eq_true] at hwf
            exact ⟨hwf.1.1, hwf.1.2, hwf.2⟩
          rw [parseKV_wsDrop fuel _ _ (nlIndent_all_ws _),
            ihK (ind + 1) k v _ (by omega) hwf2.1 hwf2.2.1
              (numGuard_serDictTail _ _ _ _ (nlIndent_all_ws _))]
          simp only [ihR (ind + 1) kvs (nlIndent ind) rest (by omega) hwf2.2.2
            (nlIndent_all_ws _)]
    · -- parseKV on a serialized member
      intro ind k v rest hsz hk hwf hg
      rw [parseKV_quote]
      simp only [scanStr_append k.data _ hk]
      rw [skipWs_cons_not_ws _ (by decide)]
      simp only [parseVal_space, ihP ind v rest (by omega) hwf hg, string_mk_data]
    · -- parseListTail on a serialized array tail
      intro ind xs ws rest hsz hwf hws
      cases xs with
      | nil =>
        have harr : serListTail ind [] ++ (ws ++ ']' :: rest) = ws ++ ']' :: rest := rfl
        rw [harr]
        simp only [parseListTail]
        rw [skipWs_append_ws _ _ hws, skipWs_cons_not_ws _ (by decide)]
        rfl
      | cons x xs =>
        have harr : serListTail ind (x :: xs) ++ (ws ++ ']' :: rest)
            = ',' :: (nlIndent ind ++ (serVal ind x ++
                (serListTail ind xs ++ (ws ++ ']' :: rest)))) := by
          simp only [serListTail]
          simp [List.append_assoc]
        simp only [tsize] at hsz
        have hwf2 : wfPy x = true ∧ wfList xs = true := by
          have he : wfList (x :: xs) = (wfPy x && wfList xs) := rfl
          rw [he] at hwf
          simp only [Bool.and_eq_true] at hwf
          exact hwf
        rw [harr, parseListTail_comma,
          parseVal_wsDrop _ _ _ (nlIndent_all_ws _),
          ihP ind x _ (by omega) hwf2.1 (numGuard_serListTail _ _ _ _ hws)]
        simp only [ihQ ind xs ws rest (by omega) hwf2.2 hws]
    · -- parseDictTail on a serialized object tail
      intro ind kvs ws rest hsz hwf hws
      cases kvs with
      | nil =>
        have harr : serDictTail ind [] ++ (ws ++ rbrace :: rest)
            = ws ++ rbrace :: rest := rfl
        rw [harr]
        simp only [parseDictTail]
        rw [skipWs_append_ws _ _ hws, skipWs_cons_not_ws _ (by decide)]
        rfl
      | cons kv kvs =>
        obtain ⟨k, v⟩ := kv
        have harr : serDictTail ind ((k, v) :: kvs) ++ (ws ++ rbrace :: rest)
            = ',' :: (nlIndent ind ++
                ('"' :: (k.data ++ ('"' :: ':' :: ' ' :: (serVal ind v ++
                  (serDictTail ind kvs ++ (ws ++ rbrace :: rest))))))) := by
          simp only [serDictTail]
          simp [List.append_assoc]
        simp only [dsize] at hsz
        have hwf2 : k.data.all safeChar = true ∧ wfPy v = true ∧ wfKVs kvs = true := by
          have he : wfKVs ((k, v) :: kvs)
              = (k.data.all safeChar && wfPy v && wfKVs kvs) := rfl
          rw [he] at hwf
          simp only [Bool.and_eq_true] at hwf
          exact ⟨hwf.1.1, hwf.1.2, hwf.2⟩
        rw [harr, parseDictTail_comma,
          parseKV_wsDrop _ _ _ (nlIndent_all_ws _),
          ihK ind k v _ (by omega) hwf2.1 hwf2.2.1
            (numGuard_serDictTail _ _ _ _ hws)]
        simp only [ihR ind kvs ws rest (by omega) hwf2.2.2 hws]

lemma parseJson_serVal (v : PyObj) (hwf : wfPy v = true) :
    parseJson (String.mk (serVal 0 v)) = some v := by
  unfold parseJson
  have hd : (String.mk (serVal 0 v)).data = serVal 0 v := rfl
  rw [hd]
  have h := (parse_ser ((serVal 0 v).length + 1)).1 0 v [] (jsize_le_serVal 0 v) hwf rfl
  rw [List.append_nil] at h
  rw [h]
  rfl

lemma natCharsAux_all_safe (fuel : Nat) :
    ∀ n, (natCharsAux fuel n).all safeChar = true := by
  induction fuel with
  | zero => intro n; rfl
  | succ fuel ih =>
    intro n
    unfold natCharsAux
    split
    · rfl
    · simp only [List.all_append, Bool.and_eq_true]
      exact ⟨ih _, by simp [safeChar_digitChar]⟩

lemma natChars_all_safe (n : Nat) : (natChars n).all safeChar = true := by
  unfold natChars
  split
  · decide
  · exact natCharsAux_all_safe n n

lemma ratChars_all_safe (q : ℚ) : (ratChars q).all safeChar = true := by
  have hint : ∀ i : Int, (intChars i).all safeChar = true := by
    intro i
    unfold intChars
    split
    · simp only [List.all_cons, Bool.and_eq_true]
      exact ⟨by decide, natChars_all_safe _⟩
    · exact natChars_all_safe _
  unfold ratChars
  split
  · exact hint _
  · simp only [List.all_append, List.all_cons, Bool.and_eq_true]
    exact ⟨hint _, by decide, natChars_all_safe _⟩

lemma isoformat_all_safe (t : ℚ) : (isoformat t).data.all safeChar = true :=
  ratChars_all_safe t

mutual
theorem numTree_of_npShape : ∀ (v : PyObj) (s : List Nat),
    npShape v = some s → numTree v = true
  | .num _, _, _ => rfl
  | .str _, _, h => by simp [npShape] at h
  | .dict _, _, h => by simp [npShape] at h
  | .list xs, s, h => by
    simp only [npShape] at h
    split at h
    · rename_i t ht
      exact numTree_list_of_npShapeElems xs t ht
    · exact absurd h (by simp)

theorem numTree_list_of_npShapeElems : ∀ (xs : List PyObj) (s : List Nat),
    npShapeElems xs = some s → numTree (.list xs) = true
  | [], _, _ => rfl
  | [x], s, h => by
    simp only [npShapeElems] at h
    have h1 := numTree_of_npShape x s h
    show numTreeList [x] = true
    simp [numTreeList, h1]
  | x :: y :: rest, s, h => by
    simp only [npShapeElems] at h
    split at h
    · rename_i s1 s2 h1 h2
      split at h
      · have hx := numTree_of_npShape x s1 h1
        have hr : numTreeList (y :: rest) = true :=
          numTree_list_of_npShapeElems (y :: rest) s2 h2
        show numTreeList (x :: y :: rest) = true
        show (numTree x && numTreeList (y :: rest)) = true
        rw [hx, hr]
        rfl
      · exact absurd h (by simp)
    · exact absurd h (by simp)
end

theorem wfPy_of_numTree : ∀ (v : PyObj), numTree v = true → wfPy v = true
  | .num _, _ => rfl
  | .str _, h => by simp [numTree] at h
  | .dict _, h => by simp [numTree] at h
  | .list [], _ => rfl
  | .list (x :: xs), h => by
    have h2 : (numTree x && numTreeList xs) = true := h
    simp only [Bool.and_eq_true] at h2
    have hx := wfPy_of_numTree x h2.1
    have hxs : wfPy (.list xs) = true := wfPy_of_numTree (.list xs) h2.2
    show wfList (x :: xs) = true
    have h3 : wfList xs = true := hxs
    simp only [wfList, Bool.and_eq_true]
    exact ⟨hx, h3⟩

lemma numTree_mem : ∀ (xs : List PyObj), numTree (.list xs) = true →
    ∀ x ∈ xs, numTree x = true := by
  intro xs
  induction xs with
  | nil => intro _ x hx; simp at hx
  | cons y ys ih =>
    intro h x hx
    have h2 : (numTree y && numTreeList ys) = true := h
    simp only [Bool.and_eq_true] at h2
    rcases List.mem_cons.mp hx with rfl | hx2
    · exact h2.1
    · exact ih h2.2 x hx2

lemma numTree_pyGetItem {o : PyObj} {i : Nat} {x : PyObj}
    (ho : numTree o = true) (h : pyGetItem o i = .ok x) : numTree x = true := by
  cases o with
  | num q => simp [pyGetItem] at h
  | str s => simp [numTree] at ho
  | dict kvs => simp [numTree] at ho
  | list xs =>
    simp only [pyGetItem] at h
    split at h
    · rename_i x0 hx0
      injection h with h2
      subst h2
      exact numTree_mem xs ho x0 (List.getElem?_mem hx0)
    · simp at h

lemma wf_featureDict {c1 c0 : PyObj} (h1 : wfPy c1 = true) (h0 : wfPy c0 = true)
    (v t : ℚ) : wfPy (featureDict c1 c0 v t) = true := by
  show wfKVs _ = true
  simp only [wfKVs, wfPy, wfList, Bool.and_eq_true]
  refine ⟨⟨by decide, by decide⟩,
    ⟨by decide, ⟨by decide, by decide⟩, ⟨by decide, h1, h0, trivial⟩, trivial⟩,
    ⟨by decide, ⟨by decide, trivial⟩, ⟨by decide, isoformat_all_safe t⟩, trivial⟩,
    trivial⟩

lemma mkFeature_ok_inv {i : Nat} {coord : PyObj} {t : ℚ} {vl : List ℚ} {f : PyObj}
    (h : mkFeature i coord t vl = .ok f) :
    ∃ c1 c0 v, pyGetItem coord 1 = .ok c1 ∧ pyGetItem coord 0 = .ok c0 ∧
      vl[i]? = some v ∧ f = featureDict c1 c0 v t := by
  unfold mkFeature at h
  split at h
  · exact absurd h (by simp)
  · rename_i c1 hc1
    split at h
    · exact absurd h (by simp)
    · rename_i c0 hc0
      split at h
      · exact absurd h (by simp)
      · rename_i v hv
        injection h with h2
        exact ⟨c1, c0, v, hc1, hc0, hv, h2.symm⟩

lemma mkFeature_ok_wf {i : Nat} {coord : PyObj} {t : ℚ} {vl : List ℚ} {f : PyObj}
    (hco : numTree coord = true) (h : mkFeature i coord t vl = .ok f) :
    wfPy f = true := by
  obtain ⟨c1, c0, v, hc1, hc0, hv, rfl⟩ := mkFeature_ok_inv h
  exact wf_featureDict (wfPy_of_numTree _ (numTree_pyGetItem hco hc1))
    (wfPy_of_numTree _ (numTree_pyGetItem hco hc0)) v t

lemma mkFeatures_ok_inv {i : Nat} {coord : PyObj} :
    ∀ {pairs : List (ℚ × List ℚ)} {fs : List PyObj},
    mkFeatures i coord pairs = .ok fs →
    fs.length = pairs.length ∧
    ∀ j (hj : j < pairs.length) (hj2 : j < fs.length),
      mkFeature i coord (pairs.get ⟨j, hj⟩).1 (pairs.get ⟨j, hj⟩).2
        = .ok (fs.get ⟨j, hj2⟩) := by
  intro pairs
  induction pairs with
  | nil =>
    intro fs h
    unfold mkFeatures at h
    injection h with h2
    subst h2
    exact ⟨rfl, by intro j hj; simp at hj⟩
  | cons p rest ih =>
    intro fs h
    obtain ⟨t, vl⟩ := p
    unfold mkFeatures at h
    split at h
    · exact absurd h (by simp)
    · rename_i f hf
      split at h
      · exact absurd h (by simp)
      · rename_i fs2 hfs2
        injection h with h2
        subst h2
        obtain ⟨hlen, hall⟩ := ih hfs2
        refine ⟨by simp [hlen], ?_⟩
        intro j hj hj2
        cases j with
        | zero => exact hf
        | succ j =>
          exact hall j (by simpa using hj) (by simpa using hj2)

lemma mkFeatures_ok_wf {i : Nat} {coord : PyObj} :
    ∀ {pairs : List (ℚ × List ℚ)} {fs : List PyObj},
    numTree coord = true → mkFeatures i coord pairs = .ok fs →
    wfList fs = true := by
  intro pairs
  induction pairs with
  | nil =>
    intro fs _ h
    unfold mkFeatures at h
    injection h with h2
    subst h2
    rfl
  | cons p rest ih =>
    intro fs hco h
    obtain ⟨t, vl⟩ := p
    unfold mkFeatures at h
    split at h
    · exact absurd h (by simp)
    · rename_i f hf
      split at h
      · exact absurd h (by simp)
      · rename_i fs2 hfs2
        injection h with h2
        subst h2
        show (wfPy f && wfList fs2) = true
        rw [mkFeature_ok_wf hco hf, ih hco hfs2]
        rfl

lemma assembleAll_ok_inv {pairs : List (ℚ × List ℚ)} :
    ∀ {i : Nat} {cs gj : List PyObj},
    assembleAll pairs i cs = .ok gj →
    gj.length = cs.length ∧
    ∀ k (hk : k < cs.length) (hk2 : k < gj.length),
      ∃ fls, mkFeatures (i + k) (cs.get ⟨k, hk⟩) pairs = .ok fls ∧
        gj.get ⟨k, hk2⟩ = .dict [("type", .str "FeatureCollection"),
                                 ("features", .list fls)] := by
  intro i cs
  induction cs generalizing i with
  | nil =>
    intro gj h
    unfold assembleAll at h
    injection h with h2
    subst h2
    exact ⟨rfl, by intro k hk; simp at hk⟩
  | cons coord cs ih =>
    intro gj h
    unfold assembleAll at h
    split at h
    · exact absurd h (by simp)
    · rename_i fls hfls
      split at h
      · exact absurd h (by simp)
      · rename_i gjs hgjs
        injection h with h2
        subst h2
        obtain ⟨hlen, hall⟩ := ih hgjs
        refine ⟨by simp [hlen], ?_⟩
        intro k hk hk2
        cases k with
        | zero => exact ⟨fls, by simpa using hfls, rfl⟩
        | succ k =>
          obtain ⟨fls2, hm, hg⟩ := hall k (by simpa using hk) (by simpa using hk2)
          refine ⟨fls2, ?_, hg⟩
          have he : i + 1 + k = i + (k + 1) := by omega
          rw [← he]
          exact hm

lemma assembleAll_ok_wf {pairs : List (ℚ × List ℚ)} :
    ∀ {i : Nat} {cs gj : List PyObj},
    numTreeList cs = true → assembleAll pairs i cs = .ok gj →
    wfList gj = true := by
  intro i cs
  induction cs generalizing i with
  | nil =>
    intro gj _ h
    unfold assembleAll at h
    injection h with h2
    subst h2
    rfl
  | cons coord cs ih =>
    intro gj hcs h
    have hcs2 : (numTree coord && numTreeList cs) = true := hcs
    simp only [Bool.and_eq_true] at hcs2
    unfold assembleAll at h
    split at h
    · exact absurd h (by simp)
    · rename_i fls hfls
      split at h
      · exact absurd h (by simp)
      · rename_i gjs hgjs
        injection h with h2
        subst h2
        show (wfPy _ && wfList gjs) = true
        rw [ih hcs2.2 hgjs]
        have hfc : wfPy (.dict [("type", .str "FeatureCollection"),
            ("features", .list fls)]) = true := by
          have hty : ("type" : String).data.all safeChar = true := by decide
          have hfcs : wfPy (.str "FeatureCollection") = true := by decide
          have hfk : ("features" : String).data.all safeChar = true := by decide
          show wfKVs _ = true
          simp only [wfKVs, wfPy, Bool.and_eq_true]
          exact ⟨⟨hty, hfcs⟩, ⟨hfk, mkFeatures_ok_wf hcs2.1 hfls⟩, trivial⟩
        rw [hfc]
        rfl

lemma extractStep_ok_inv {gp : GeoPlot} {ep : List PyObj} {values : List (List ℚ)}
    {c : PyObj} {v : List (List ℚ)} (h : extractStep gp ep values = .ok (c, v)) :
    ∃ st p propVal, ep.getLast? = some st ∧
      read_var st gp.entity_position = some p ∧ npArrayTolist p = some c ∧
      read_var st gp.entity_property = some propVal ∧
      (npArrayTolist propVal).isSome = true ∧
      v = values ++ [npFlatten propVal] := by
  unfold extractStep at h
  split at h
  · exact absurd h (by simp)
  · rename_i st hst
    split at h
    · exact absurd h (by simp)
    · rename_i p hp
      split at h
      · exact absurd h (by simp)
      · rename_i c2 hc2
        split at h
        · exact absurd h (by simp)
        · rename_i propVal hprop
          split at h
          · exact absurd h (by simp)
          · rename_i pa hpa
            have hpa2 : pa = propVal := by
              unfold npArrayTolist at hpa
              split at hpa
              · injection hpa with h3
                exact h3.symm
              · exact absurd hpa (by simp)
            subst hpa2
            injection h with h2
            have hc : c2 = c := congrArg Prod.fst h2
            have hv : values ++ [npFlatten pa] = v := congrArg Prod.snd h2
            subst hc
            exact ⟨st, p, pa, hst, hp, hc2, hprop, by simp [hpa], hv.symm⟩

lemma extractStep_numTree {gp : GeoPlot} {ep : List PyObj} {values : List (List ℚ)}
    {c : PyObj} {v : List (List ℚ)} (h : extractStep gp ep values = .ok (c, v)) :
    numTree c = true := by
  obtain ⟨st, p, propVal, -, -, hc, -, -, -⟩ := extractStep_ok_inv h
  unfold npArrayTolist at hc
  split at hc
  · rename_i s hs
    injection hc with h2
    subst h2
    exact numTree_of_npShape _ _ hs
  · exact absurd hc (by simp)

lemma extractLoop_numTree {gp : GeoPlot} :
    ∀ {eps : List (List PyObj)} {c0 : PyObj} {v0 : List (List ℚ)}
      {c : PyObj} {v : List (List ℚ)},
    numTree c0 = true → extractLoop gp eps c0 v0 = .ok (c, v) → numTree c = true := by
  intro eps
  induction eps with
  | nil =>
    intro c0 v0 c v h0 h
    unfold extractLoop at h
    injection h with h2
    have : c0 = c := congrArg Prod.fst h2
    subst this
    exact h0
  | cons ep rest ih =>
    intro c0 v0 c v h0 h
    unfold extractLoop at h
    split at h
    · exact absurd h (by simp)
    · rename_i cv hcv
      obtain ⟨c1, v1⟩ := cv
      exact ih (extractStep_numTree hcv) h

lemma extractLoop_values_length {gp : GeoPlot} :
    ∀ {eps : List (List PyObj)} {c0 : PyObj} {v0 : List (List ℚ)}
      {c : PyObj} {v : List (List ℚ)},
    extractLoop gp eps c0 v0 = .ok (c, v) → v.length = v0.length + eps.length := by
  intro eps
  induction eps with
  | nil =>
    intro c0 v0 c v h
    unfold extractLoop at h
    injection h with h2
    have : v0 = v := congrArg Prod.snd h2
    subst this
    simp
  | cons ep rest ih =>
    intro c0 v0 c v h
    unfold extractLoop at h
    split at h
    · exact absurd h (by simp)
    · rename_i cv hcv
      obtain ⟨c1, v1⟩ := cv
      obtain ⟨-, -, propVal, -, -, -, -, -, hv1⟩ := extractStep_ok_inv hcv
      have := ih h
      rw [this, hv1]
      simp
      omega

lemma extractLoop_last_coords {gp : GeoPlot} :
    ∀ {eps : List (List PyObj)} {c0 : PyObj} {v0 : List (List ℚ)}
      {c : PyObj} {v : List (List ℚ)},
    extractLoop gp eps c0 v0 = .ok (c, v) →
    (eps = [] ∧ c = c0) ∨
    (∃ ep st p, eps.getLast? = some ep ∧ ep.getLast? = some st ∧
      read_var st gp.entity_position = some p ∧ npArrayTolist p = some c) := by
  intro eps
  induction eps with
  | nil =>
    intro c0 v0 c v h
    unfold extractLoop at h
    injection h with h2
    exact Or.inl ⟨rfl, (congrArg Prod.fst h2).symm⟩
  | cons ep rest ih =>
    intro c0 v0 c v h
    unfold extractLoop at h
    split at h
    · exact absurd h (by simp)
    · rename_i cv hcv
      obtain ⟨c1, v1⟩ := cv
      rcases ih h with ⟨hrest, hc⟩ | ⟨ep2, st, p, hlast, hst, hrv, hna⟩
      · subst hrest
        obtain ⟨st, p, propVal, hst, hp, hc2, -, -, -⟩ := extractStep_ok_inv hcv
        subst hc
        exact Or.inr ⟨ep, st, p, rfl, hst, hp, hc2⟩
      · refine Or.inr ⟨ep2, st, p, ?_, hst, hrv, hna⟩
        rcases List.eq_nil_or_concat rest with rfl | ⟨r2, a, rfl⟩
        · simp at hlast
        · simp only [List.concat_eq_append] at hlast ⊢
          rw [List.getLast?_concat] at hlast
          rw [show ep :: (r2 ++ [a]) = (ep :: r2) ++ [a] from rfl,
            List.getLast?_concat]
          exact hlast

lemma extractStep_congr {gp : GeoPlot} {ep ep2 : List PyObj} (values : List (List ℚ))
    (h : ep.getLast? = ep2.getLast?) :
    extractStep gp ep values = extractStep gp ep2 values := by
  unfold extractStep
  rw [h]

lemma extractLoop_congr {gp : GeoPlot} :
    ∀ {eps eps2 : List (List PyObj)} {c0 : PyObj} {v0 : List (List ℚ)},
    eps.length = eps2.length →
    (∀ i : Nat, (eps[i]?.getD []).getLast? = (eps2[i]?.getD []).getLast?) →
    extractLoop gp eps c0 v0 = extractLoop gp eps2 c0 v0 := by
  intro eps
  induction eps with
  | nil =>
    intro eps2 c0 v0 hlen _
    cases eps2 with
    | nil => rfl
    | cons a b => simp at hlen
  | cons ep rest ih =>
    intro eps2 c0 v0 hlen hall
    cases eps2 with
    | nil => simp at hlen
    | cons ep2 rest2 =>
      have h0 := hall 0
      simp only [List.getElem?_cons_zero, Option.getD_some] at h0
      unfold extractLoop
      rw [extractStep_congr v0 h0]
      split
      · rfl
      · rename_i cv hcv
        exact ih (by simpa using hlen) (fun i => by simpa using hall (i + 1))

lemma render_ok_inv {gp : GeoPlot} {traj : List (List PyObj)} {start : ℚ}
    {gj : List PyObj} {ts : List ℚ} {fs : FS}
    (h : render gp traj start = (.ok (gj, ts), fs)) :
    ∃ cs values,
      extractLoop gp (traj.take (traj.length - 1)) (.list []) [] = .ok (.list cs, values) ∧
      ts = gp.timestamps start ∧ ts ≠ [] ∧
      assembleAll ((gp.timestamps start).zip values) 0 cs = .ok gj ∧
      fs = ⟨some (String.mk (serVal 0 (.list gj))), some geoplot_template⟩ := by
  unfold render at h
  split at h
  · exact absurd h (by simp)
  · rename_i coordsObj values hloop
    split at h
    · rename_i cs
      split at h
      · exact absurd h (by simp)
      · rename_i geojsons hasm
        split at h
        · exact absurd h (by simp)
        · rename_i t0 trest hts
          injection h with h1 h2
          injection h1 with h1
          have hgj : geojsons = gj := congrArg Prod.fst h1
          have hts2 : t0 :: trest = ts := congrArg Prod.snd h1
          subst hgj
          refine ⟨cs, values, hloop, by rw [hts, hts2], ?_, hasm, ?_⟩
          · rw [← hts2]
            simp
          · rw [← h2]
            rfl
    · exact absurd h (by simp)

lemma render_error_inv {gp : GeoPlot} {traj : List (List PyObj)} {start : ℚ}
    {e : RenderErr} {fs : FS} (h : render gp traj start = (.error e, fs)) :
    fs = ⟨none, none⟩ ∨
    ∃ gj : List PyObj, wfList gj = true ∧
      fs = ⟨some (String.mk (serVal 0 (.list gj))), some ""⟩ := by
  unfold render at h
  split at h
  · exact Or.inl (congrArg Prod.snd h).symm
  · rename_i coordsObj values hloop
    split at h
    · rename_i cs
      split at h
      · exact Or.inl (congrArg Prod.snd h).symm
      · rename_i geojsons hasm
        split at h
        · refine Or.inr ⟨geojsons, ?_, (congrArg Prod.snd h).symm⟩
          have hco : numTree (.list cs) = true :=
            extractLoop_numTree (show numTree (PyObj.list []) = true from rfl) hloop
          exact assembleAll_ok_wf hco hasm
        · exact absurd h (by simp)
    · exact Or.inl (congrArg Prod.snd h).symm

lemma timestamps_length (gp : GeoPlot) (start : ℚ) :
    (gp.timestamps start).length
      = gp.config.num_episodes * gp.config.num_steps_per_episode := by
  unfold GeoPlot.timestamps
  rw [List.length_map, List.length_range]

lemma timestamps_get (gp : GeoPlot) (start : ℚ) (i : Nat)
    (h : i < (gp.timestamps start).length) :
    (gp.timestamps start).get ⟨i, h⟩ = start + (i : ℚ) * gp.step_time := by
  unfold GeoPlot.timestamps
  simp only [List.get_eq_getElem, List.getElem_map, List.getElem_range]

lemma featuresOf_fc (fls : List PyObj) :
    featuresOf (.dict [("type", .str "FeatureCollection"),
                       ("features", .list fls)]) = some (.list fls) := rfl

lemma geomCoordsOf_featureDict (c1 c0 : PyObj) (v t : ℚ) :
    geomCoordsOf (featureDict c1 c0 v t) = some (.list [c1, c0]) := rfl

lemma valueOf_featureDict (c1 c0 : PyObj) (v t : ℚ) :
    valueOf (featureDict c1 c0 v t) = some (.num v) := rfl

/-- C4: `render` synthesizes exactly `num_episodes * num_steps_per_episode`
timestamps, the `i`-th being the call-time wall-clock start plus
`i * step_time` seconds; a successful `render` returns exactly this list. -/
theorem geoplot_c4 : ∀ (gp : GeoPlot) (start : ℚ),
    (∀ (traj : List (List PyObj)) (gj : List PyObj) (ts : List ℚ) (fs : FS),
      render gp traj start = (.ok (gj, ts), fs) → ts = gp.timestamps start) ∧
    (gp.timestamps start).length
      = gp.config.num_episodes * gp.config.num_steps_per_episode ∧
    (∀ (i : Nat) (h : i < (gp.timestamps start).length),
      (gp.timestamps start).get ⟨i, h⟩ = start + (i : ℚ) * gp.step_time) := by
  intro gp start
  refine ⟨?_, timestamps_length gp start, fun i h => timestamps_get gp start i h⟩
  intro traj gj ts fs h
  obtain ⟨cs, values, hloop, hts, hne, hasm, hfs⟩ := render_ok_inv h
  exact hts

/-- Witness for C4 at the `gpA` fixture. -/
theorem geoplot_c4_witness :
    ([(0 : ℚ)] = gpA.timestamps 0) ∧
    (gpA.timestamps 0).get ⟨0, by with_unfolding_all decide⟩
      = 0 + ((0 : Nat) : ℚ) * gpA.step_time :=
  ⟨(geoplot_c4 gpA 0).1 [[stA], [stA]] [fcA] [0] fsA (by with_unfolding_all rfl),
   (geoplot_c4 gpA 0).2.2 0 (by with_unfolding_all decide)⟩

/-- C6 (as stated) is false: with `step_time = 0` the synthesized timestamps
are not strictly increasing. -/
theorem geoplot_c6_counterexample :
    ¬ (gpB.timestamps 0).Chain' (fun a b => a < b) := by
  have he : gpB.timestamps 0 = [0, 0] := by with_unfolding_all rfl
  rw [he]
  intro h
  rw [List.chain'_cons] at h
  exact absurd h.1 (lt_irrefl 0)

/-- C6 amended: consecutive synthesized timestamps always differ by exactly
`step_time`, and when `step_time` is positive the sequence is strictly
increasing. -/
theorem geoplot_c6_amended : ∀ (gp : GeoPlot) (start : ℚ),
    (0 < gp.step_time → (gp.timestamps start).Chain' (fun a b => a < b)) ∧
    (∀ (i : Nat) (h : i + 1 < (gp.timestamps start).length),
      (gp.timestamps start).get ⟨i + 1, h⟩
        - (gp.timestamps start).get ⟨i, Nat.lt_of_succ_lt h⟩ = gp.step_time) := by
  intro gp start
  constructor
  · intro hpos
    rw [List.chain'_iff_get]
    intro i h
    rw [timestamps_get, timestamps_get]
    have hc : ((i + 1 : Nat) : ℚ) = (i : ℚ) + 1 := by push_cast; ring
    rw [hc]
    nlinarith [hpos]
  · intro i h
    rw [timestamps_get, timestamps_get]
    have hc : ((i + 1 : Nat) : ℚ) = (i : ℚ) + 1 := by push_cast; ring
    rw [hc]
    ring

/-- Witness for the amended C6 at the `gpD` fixture. -/
theorem geoplot_c6_witness :
    (gpD.timestamps 0).Chain' (fun a b => a < b) ∧
    (gpD.timestamps 0).get ⟨0 + 1, by with_unfolding_all decide⟩
      - (gpD.timestamps 0).get ⟨0, by with_unfolding_all decide⟩ = gpD.step_time :=
  ⟨(geoplot_c6_amended gpD 0).1 (show (0 : ℚ) < 1 by norm_num),
   (geoplot_c6_amended gpD 0).2 0 (by with_unfolding_all decide)⟩

/-- C7 (as stated) is false: on a one-episode trajectory `render` raises no
error; it succeeds with an empty FeatureCollection list. -/
theorem geoplot_c7_counterexample :
    (render gpA [[PyObj.dict []]] 0).1 = .ok ([], [0]) := by
  with_unfolding_all rfl

/-- C7 amended: a trajectory with fewer than 2 episodes produces no error as
long as the configured step count is positive — the processing loop runs zero
times and `render` silently writes an empty FeatureCollection list. -/
theorem geoplot_c7_amended : ∀ (gp : GeoPlot) (traj : List (List PyObj)) (start : ℚ),
    traj.length < 2 → 0 < gp.config.num_episodes * gp.config.num_steps_per_episode →
    (render gp traj start).1 = .ok ([], gp.timestamps start) ∧
    (render gp traj start).2.geojson = some (String.mk (serVal 0 (.list []))) := by
  intro gp traj start hlen hpos
  have htake : traj.take (traj.length - 1) = [] := by
    have h0 : traj.length - 1 = 0 := by omega
    rw [h0]
    simp
  obtain ⟨t0, trest, hts⟩ : ∃ t0 trest, gp.timestamps start = t0 :: trest := by
    have hl := timestamps_length gp start
    cases hcase : gp.timestamps start with
    | nil =>
      rw [hcase] at hl
      simp only [List.length_nil] at hl
      omega
    | cons a b => exact ⟨a, b, rfl⟩
  unfold render
  rw [htake]
  simp only [extractLoop, assembleAll, hts]
  constructor <;> trivial

/-- Witness for the amended C7 at the `gpA` fixture with a one-episode
trajectory. -/
theorem geoplot_c7_witness :
    (render gpA [[PyObj.dict []]] 0).1 = .ok ([], gpA.timestamps 0) ∧
    (render gpA [[PyObj.dict []]] 0).2.geojson
      = some (String.mk (serVal 0 (.list []))) :=
  geoplot_c7_amended gpA [[PyObj.dict []]] 0 (by decide) (by decide)

/-- C8 (as stated) is false: a `render` call that fails evaluating
`timestamps[0]` has already fully written the `.geojson` file and leaves the
`.html` file created but empty — a partially-written output file. -/
theorem geoplot_c8_counterexample :
    render gpC [[stC], [stC]] 0
      = (.error .timestampIndexError, ⟨some "[]", some ""⟩) ∧
    "" ≠ geoplot_template := by
  constructor
  · with_unfolding_all rfl
  · decide

/-- C8 amended: a failed `render` either created no output file at all
(failure before or during assembly), or — failing at the HTML stage — left a
fully-written, parseable `.geojson` and an empty `.html` file. -/
theorem geoplot_c8_amended : ∀ (gp : GeoPlot) (traj : List (List PyObj))
    (start : ℚ) (e : RenderErr) (fs : FS),
    render gp traj start = (.error e, fs) →
    (fs.geojson = none → fs = ⟨none, none⟩) ∧
    (∀ txt, fs.geojson = some txt →
      fs.html = some "" ∧ (parseJson txt).isSome = true) := by
  intro gp traj start e fs h
  rcases render_error_inv h with rfl | ⟨gj, hwf, rfl⟩
  · exact ⟨fun _ => rfl, fun txt htxt => by simp at htxt⟩
  · refine ⟨fun hn => by simp at hn, fun txt htxt => ?_⟩
    have htxt2 : String.mk (serVal 0 (.list gj)) = txt := by
      injection htxt
    refine ⟨rfl, ?_⟩
    rw [← htxt2, parseJson_serVal _ (show wfPy (.list gj) = true from hwf)]
    rfl

/-- Witness for the amended C8 at the `gpC` fixture (empty timestamp list). -/
theorem geoplot_c8_witness :
    (FS.html ⟨some "[]", some ""⟩ = some "") ∧ (parseJson "[]").isSome = true :=
  (geoplot_c8_amended gpC [[stC], [stC]] 0 .timestampIndexError
    ⟨some "[]", some ""⟩ (by with_unfolding_all rfl)).2 "[]" rfl

/-- C2: for a trajectory with at least two episodes, a successful `render`
emits exactly one FeatureCollection per entity of the final coordinate
array. -/
theorem geoplot_c2 : ∀ (gp : GeoPlot) (traj : List (List PyObj)) (start : ℚ)
    (gj : List PyObj) (ts : List ℚ) (fs : FS) (cs : List PyObj)
    (values : List (List ℚ)),
    2 ≤ traj.length →
    render gp traj start = (.ok (gj, ts), fs) →
    extractLoop gp (traj.take (traj.length - 1)) (.list []) [] = .ok (.list cs, values) →
    gj.length = cs.length := by
  intro gp traj start gj ts fs cs values hlen h hloop
  obtain ⟨cs2, values2, hloop2, -, -, hasm, -⟩ := render_ok_inv h
  rw [hloop] at hloop2
  injection hloop2 with h2
  have hcs : PyObj.list cs = PyObj.list cs2 := congrArg Prod.fst h2
  have hvals : values = values2 := congrArg Prod.snd h2
  injection hcs with hcs2
  subst hcs2
  subst hvals
  exact (assembleAll_ok_inv hasm).1

/-- Witness for C2 at the `gpA` fixture. -/
theorem geoplot_c2_witness :
    List.length [fcA] = List.length [PyObj.list [.num 1, .num 2]] :=
  geoplot_c2 gpA [[stA], [stA]] 0 [fcA] [0] fsA [.list [.num 1, .num 2]] [[3]]
    (by decide) (by with_unfolding_all rfl) (by with_unfolding_all rfl)

lemma pyGetItem_ne_valueIndexError (o : PyObj) (i : Nat) :
    pyGetItem o i ≠ .error .valueIndexError := by
  cases o with
  | num q => simp [pyGetItem]
  | str s =>
    simp only [pyGetItem]
    split <;> simp
  | list xs =>
    simp only [pyGetItem]
    split <;> simp
  | dict kvs => simp [pyGetItem]

lemma mkFeature_ne_valueIndexError {i : Nat} {coord : PyObj} {t : ℚ} {vl : List ℚ}
    (h : i < vl.length) : mkFeature i coord t vl ≠ .error .valueIndexError := by
  unfold mkFeature
  split
  · rename_i e he
    intro hc
    injection hc with hc2
    subst hc2
    exact pyGetItem_ne_valueIndexError coord 1 he
  · split
    · rename_i e he
      intro hc
      injection hc with hc2
      subst hc2
      exact pyGetItem_ne_valueIndexError coord 0 he
    · split
      · rename_i hv
        rw [List.getElem?_eq_none_iff] at hv
        omega
      · simp

lemma mkFeatures_ne_valueIndexError {i : Nat} {coord : PyObj} :
    ∀ {pairs : List (ℚ × List ℚ)},
    (∀ p ∈ pairs, i < p.2.length) →
    mkFeatures i coord pairs ≠ .error .valueIndexError := by
  intro pairs
  induction pairs with
  | nil => intro _; simp [mkFeatures]
  | cons p rest ih =>
    intro hall
    obtain ⟨t, vl⟩ := p
    unfold mkFeatures
    split
    · rename_i e he
      intro hc
      injection hc with hc2
      subst hc2
      exact mkFeature_ne_valueIndexError (hall (t, vl) (by simp)) he
    · split
      · rename_i e he
        intro hc
        injection hc with hc2
        subst hc2
        exact ih (fun p hp => hall p (List.mem_cons_of_mem _ hp)) he
      · simp

lemma assembleAll_ne_valueIndexError {pairs : List (ℚ × List ℚ)} :
    ∀ {i : Nat} {cs : List PyObj},
    (∀ p ∈ pairs, i + cs.length ≤ p.2.length) →
    assembleAll pairs i cs ≠ .error .valueIndexError := by
  intro i cs
  induction cs generalizing i with
  | nil => intro _; simp [assembleAll]
  | cons coord cs ih =>
    intro hall
    unfold assembleAll
    split
    · rename_i e he
      intro hc
      injection hc with hc2
      subst hc2
      refine mkFeatures_ne_valueIndexError ?_ he
      intro p hp
      have := hall p hp
      simp only [List.length_cons] at this
      omega
    · split
      · rename_i e he
        intro hc
        injection hc with hc2
        subst hc2
        refine ih ?_ he
        intro p hp
        have := hall p hp
        simp only [List.length_cons] at this
        omega
      · simp

/-- C10: Feature assembly indexes each flattened value list by entity index
without a guard; when every value list is at least as long as the entity
count the `value_list[i]` lookup cannot fail, and on an input violating that
precondition `render` raises the corresponding index error instead of
producing output. -/
theorem geoplot_c10 :
    (∀ (pairs : List (ℚ × List ℚ)) (cs : List PyObj),
      (∀ p ∈ pairs, cs.length ≤ p.2.length) →
      assembleAll pairs 0 cs ≠ .error .valueIndexError) ∧
    render gpA [[st10], [st10]] 0 = (.error .valueIndexError, ⟨none, none⟩) := by
  constructor
  · intro pairs cs hall
    refine assembleAll_ne_valueIndexError ?_
    intro p hp
    simpa using hall p hp
  · with_unfolding_all rfl

/-- Witness for C10 at a concrete value list long enough for the entities. -/
theorem geoplot_c10_witness :
    assembleAll [((0 : ℚ), [(5 : ℚ)])] 0 [PyObj.list [.num 1, .num 2]]
      ≠ .error .valueIndexError :=
  geoplot_c10.1 [((0 : ℚ), [(5 : ℚ)])] [PyObj.list [.num 1, .num 2]]
    (by intro p hp; rw [List.mem_singleton.mp hp]; simp)

/-- C9: for every successful `render`, parsing the JSON text written to the
`.geojson` file yields a structure deeply equal to the in-memory list of
FeatureCollections. -/
theorem geoplot_c9 : ∀ (gp : GeoPlot) (traj : List (List PyObj)) (start : ℚ)
    (gj : List PyObj) (ts : List ℚ) (fs : FS) (txt : String),
    render gp traj start = (.ok (gj, ts), fs) → fs.geojson = some txt →
    parseJson txt = some (.list gj) := by
  intro gp traj start gj ts fs txt h hg
  obtain ⟨cs, values, hloop, -, -, hasm, rfl⟩ := render_ok_inv h
  have h2 : some (String.mk (serVal 0 (.list gj))) = some txt := hg
  injection h2 with htxt
  have hco : numTree (.list cs) = true :=
    extractLoop_numTree (show numTree (PyObj.list []) = true from rfl) hloop
  have hwf : wfPy (.list gj) = true :=
    show wfPy (.list gj) = true from
      assembleAll_ok_wf (show numTreeList cs = true from hco) hasm
  rw [← htxt]
  exact parseJson_serVal _ hwf

/-- Witness for C9 at the `gpA` fixture. -/
theorem geoplot_c9_witness :
    parseJson (String.mk (serVal 0 (.list [fcA]))) = some (.list [fcA]) :=
  geoplot_c9 gpA [[stA], [stA]] 0 [fcA] [0] fsA
    (String.mk (serVal 0 (.list [fcA]))) (by with_unfolding_all rfl) rfl

/-- C1: every emitted Feature's geometry holds the entity's stored coordinate
pair with components swapped — if the stored pair is `[lat, lon]` the
geometry's coordinates are `[lon, lat]`. -/
theorem geoplot_c1 : ∀ (gp : GeoPlot) (traj : List (List PyObj)) (start : ℚ)
    (gj : List PyObj) (ts : List ℚ) (fs : FS) (cs : List PyObj)
    (values : List (List ℚ)),
    render gp traj start = (.ok (gj, ts), fs) →
    extractLoop gp (traj.take (traj.length - 1)) (.list []) [] = .ok (.list cs, values) →
    ∀ (k : Nat) (hk : k < gj.length) (lat lon : ℚ),
    cs[k]? = some (.list [.num lat, .num lon]) →
    ∀ (fl : List PyObj), featuresOf (gj.get ⟨k, hk⟩) = some (.list fl) →
    ∀ f ∈ fl, geomCoordsOf f = some (.list [.num lon, .num lat]) := by
  intro gp traj start gj ts fs cs values h hloop k hk lat lon hck fl hfl f hf
  obtain ⟨cs2, values2, hloop2, -, -, hasm, -⟩ := render_ok_inv h
  rw [hloop] at hloop2
  injection hloop2 with h2
  have hcs : PyObj.list cs = PyObj.list cs2 := congrArg Prod.fst h2
  have hvals : values = values2 := congrArg Prod.snd h2
  injection hcs with hcs2
  subst hcs2
  subst hvals
  obtain ⟨hlen, hall⟩ := assembleAll_ok_inv hasm
  have hkcs : k < cs.length := by omega
  obtain ⟨fls, hmk, hget⟩ := hall k hkcs hk
  rw [hget, featuresOf_fc] at hfl
  injection hfl with hfl2
  injection hfl2 with hfl3
  subst hfl3
  obtain ⟨n, rfl⟩ := List.mem_iff_get.mp hf
  obtain ⟨hflen, hfall⟩ := mkFeatures_ok_inv hmk
  have hjp : (n : Nat) < ((gp.timestamps start).zip values).length := by
    rw [← hflen]
    exact n.isLt
  have hmkf := hfall n.1 hjp n.isLt
  obtain ⟨c1, c0, v, hc1, hc0, hv, hfeq⟩ := mkFeature_ok_inv hmkf
  have hcoord : cs.get ⟨k, hkcs⟩ = .list [.num lat, .num lon] := by
    have hsome := List.getElem?_eq_getElem hkcs
    rw [hck] at hsome
    injection hsome with h3
    exact h3.symm
  rw [hcoord] at hc1 hc0
  have h1 : pyGetItem (.list [PyObj.num lat, PyObj.num lon]) 1 = .ok (.num lon) := rfl
  have h0 : pyGetItem (.list [PyObj.num lat, PyObj.num lon]) 0 = .ok (.num lat) := rfl
  rw [h1] at hc1
  injection hc1 with e1
  rw [h0] at hc0
  injection hc0 with e0
  rw [hfeq, geomCoordsOf_featureDict, ← e1, ← e0]

/-- Witness for C1 at the `gpA` fixture. -/
theorem geoplot_c1_witness :
    geomCoordsOf (featureDict (.num 2) (.num 1) 3 0)
      = some (.list [.num 2, .num 1]) :=
  geoplot_c1 gpA [[stA], [stA]] 0 [fcA] [0] fsA [.list [.num 1, .num 2]] [[3]]
    (by with_unfolding_all rfl) (by with_unfolding_all rfl) 0 (by decide) 1 2
    (by with_unfolding_all rfl) [featureDict (.num 2) (.num 1) 3 0]
    (by with_unfolding_all rfl) (featureDict (.num 2) (.num 1) 3 0)
    (List.mem_singleton.mpr rfl)

/-- C5: each FeatureCollection pairs the synthesized timestamps with the
per-episode values lists (one per processed episode), truncating at the
shorter side, and each Feature carries the entity's scalar of its values
entry. -/
theorem geoplot_c5 : ∀ (gp : GeoPlot) (traj : List (List PyObj)) (start : ℚ)
    (gj : List PyObj) (ts : List ℚ) (fs : FS) (cs : List PyObj)
    (values : List (List ℚ)),
    render gp traj start = (.ok (gj, ts), fs) →
    extractLoop gp (traj.take (traj.length - 1)) (.list []) [] = .ok (.list cs, values) →
    values.length = traj.length - 1 ∧
    ∀ (k : Nat) (hk : k < gj.length) (fl : List PyObj),
      featuresOf (gj.get ⟨k, hk⟩) = some (.list fl) →
      fl.length = min ts.length values.length ∧
      ∀ (j : Nat) (hj : j < fl.length),
        valueOf (fl.get ⟨j, hj⟩) = ((values[j]?.getD [])[k]?).map PyObj.num := by
  intro gp traj start gj ts fs cs values h hloop
  obtain ⟨cs2, values2, hloop2, hts, -, hasm, -⟩ := render_ok_inv h
  rw [hloop] at hloop2
  injection hloop2 with h2
  have hcs : PyObj.list cs = PyObj.list cs2 := congrArg Prod.fst h2
  have hvals : values = values2 := congrArg Prod.snd h2
  injection hcs with hcs2
  subst hcs2
  subst hvals
  constructor
  · have hvl := extractLoop_values_length hloop
    rw [List.length_take] at hvl
    simp only [List.length_nil] at hvl
    omega
  · intro k hk fl hfl
    obtain ⟨hlen, hall⟩ := assembleAll_ok_inv hasm
    have hkcs : k < cs.length := by omega
    obtain ⟨fls, hmk, hget⟩ := hall k hkcs hk
    rw [hget, featuresOf_fc] at hfl
    injection hfl with hfl2
    injection hfl2 with hfl3
    subst hfl3
    obtain ⟨hflen, hfall⟩ := mkFeatures_ok_inv hmk
    constructor
    · rw [hflen, List.length_zip, hts]
    · intro j hj
      have hjp : j < ((gp.timestamps start).zip values).length := by
        rw [← hflen]
        exact hj
      have hmkf := hfall j hjp hj
      obtain ⟨c1, c0, v, hc1, hc0, hv, hfeq⟩ := mkFeature_ok_inv hmkf
      have hjv : j < values.length := by
        rw [List.length_zip] at hjp
        omega
      have hpair : ((gp.timestamps start).zip values).get ⟨j, hjp⟩
          = ((gp.timestamps start).get ⟨j, by rw [List.length_zip] at hjp; omega⟩,
             values.get ⟨j, hjv⟩) := List.get_zip
      rw [hfeq, valueOf_featureDict]
      rw [hpair] at hv
      simp only [Nat.zero_add] at hv
      have hvj : values[j]? = some (values.get ⟨j, hjv⟩) := by
        rw [List.getElem?_eq_getElem hjv]
        rfl
      rw [hvj]
      simp only [Option.getD_some]
      have hvget : (values.get ⟨j, hjv⟩)[k]? = some v := hv
      rw [hvget]
      rfl

/-- Witness for C5 at the `gpA` fixture. -/
theorem geoplot_c5_witness :
    List.length [[(3 : ℚ)]] = List.length [[stA], [stA]] - 1 ∧
    List.length [featureDict (.num 2) (.num 1) 3 0]
      = min (List.length [(0 : ℚ)]) (List.length [[(3 : ℚ)]]) ∧
    valueOf (List.get [featureDict (.num 2) (.num 1) 3 0] ⟨0, by decide⟩)
      = ((([[(3 : ℚ)]] : List (List ℚ))[0]?.getD [])[0]?).map PyObj.num := by
  have h := geoplot_c5 gpA [[stA], [stA]] 0 [fcA] [0] fsA
    [.list [.num 1, .num 2]] [[3]]
    (by with_unfolding_all rfl) (by with_unfolding_all rfl)
  have h2 := h.2 0 (by decide) [featureDict (.num 2) (.num 1) 3 0]
    (by with_unfolding_all rfl)
  exact ⟨h.1, h2.1, h2.2 0 (by decide)⟩

/-- C3: the processing loop visits episodes `0` through `len - 2` and reads
only each processed episode's last state (`render` cannot distinguish
trajectories agreeing on those states), and because `coords` is overwritten
on every iteration, the coordinate array that builds every Feature is the one
read from the last processed episode (index `len - 2`). -/
theorem geoplot_c3 :
    (∀ (gp : GeoPlot) (traj traj2 : List (List PyObj)) (start : ℚ),
      traj.length = traj2.length →
      (∀ i : Nat, i < traj.length - 1 →
        (traj[i]?.getD []).getLast? = (traj2[i]?.getD []).getLast?) →
      render gp traj start = render gp traj2 start) ∧
    (∀ (gp : GeoPlot) (traj : List (List PyObj)) (start : ℚ)
        (r : PyObj × List (List ℚ)),
      2 ≤ traj.length →
      extractLoop gp (traj.take (traj.length - 1)) (.list []) [] = .ok r →
      (((traj[traj.length - 2]?.getD []).getLast?.bind
          (fun st => read_var st gp.entity_position)).bind npArrayTolist)
        = some r.1) := by
  constructor
  · intro gp traj traj2 start hlen hall
    have hloop : extractLoop gp (traj.take (traj.length - 1)) (.list []) []
        = extractLoop gp (traj2.take (traj2.length - 1)) (.list []) [] := by
      apply extractLoop_congr
      · rw [List.length_take, List.length_take, hlen]
      · intro i
        by_cases hi : i < traj.length - 1
        · rw [List.getElem?_take_of_lt hi, List.getElem?_take_of_lt (by omega)]
          exact hall i hi
        · rw [List.getElem?_eq_none (by rw [List.length_take]; omega),
            List.getElem?_eq_none (by rw [List.length_take]; omega)]
    unfold render
    rw [hloop]
  · intro gp traj start r hlen hloop
    obtain ⟨c, v⟩ := r
    rcases extractLoop_last_coords hloop with ⟨hnil, -⟩ |
      ⟨ep, st, p, hlast, hst, hrv, hna⟩
    · have hl2 : (traj.take (traj.length - 1)).length = traj.length - 1 := by
        rw [List.length_take]
        omega
      rw [hnil] at hl2
      simp at hl2
      omega
    · have hteq : (traj.take (traj.length - 1)).getLast? = traj[traj.length - 2]? := by
        rw [List.getLast?_eq_getElem?, List.length_take]
        have h1 : min (traj.length - 1) traj.length - 1 = traj.length - 2 := by
          omega
        rw [h1, List.getElem?_take_of_lt (by omega)]
      rw [hteq] at hlast
      rw [hlast]
      simp only [Option.getD_some]
      rw [hst]
      simp only [Option.some_bind]
      rw [hrv]
      simp only [Option.some_bind]
      exact hna

/-- Witness for C3: the final episode's content does not affect `render`, and
the loop's surviving coordinate array comes from episode `len - 2`. -/
theorem geoplot_c3_witness :
    render gpA [[stA], [stA]] 0 = render gpA [[stA], [stA, stA]] 0 ∧
    ((([[stA], [stA]] : List (List PyObj))[List.length [[stA], [stA]] - 2]?.getD
        []).getLast?.bind (fun st => read_var st gpA.entity_position)).bind
      npArrayTolist
      = some (PyObj.list [.list [.num 1, .num 2]], [[(3 : ℚ)]]).1 := by
  constructor
  · refine geoplot_c3.1 gpA [[stA], [stA]] [[stA], [stA, stA]] 0 rfl ?_
    intro i hi
    have h0 : i = 0 := by
      simp only [List.length_cons, List.length_nil] at hi
      omega
    subst h0
    rfl
  · exact geoplot_c3.2 gpA [[stA], [stA]] 0
      (PyObj.list [.list [.num 1, .num 2]], [[(3 : ℚ)]])
      (by decide) (by with_unfolding_all rfl)
